import Mathlib

/-!
# scoop-better-shimexe: a verification development of `shim.cpp`

The launcher (`shim.exe`) reads a sidecar `.shim` file next to itself, composes a
command line from the configured target path, the configured argument prefix and
the arguments it was itself invoked with, starts the target and relays its exit code.

## Embedding

* A `wchar_t` is a `Nat`; a wide string or a buffer is a `List Nat`; `0` is `L'\0'`.
* A C string read through a pointer is the part of the buffer before the first `0`
  (`wcsview`).
* Writes into a fixed-size buffer are bounds-checked; a write outside its buffer is
  undefined behaviour in C++ and yields `none` here.
* The operating system and the C runtime are an explicit environment `Env` that fixes
  the outcome of each external call; the text-mode stream opened with `ccs=UTF-8` is
  the list of wide characters it delivers.
* `wmain` returns the list of observable effects (in program order) together with the
  exit status; `none` as exit status stands for undefined behaviour.
* Standard error is a narrow stream: an effect `stderr` carries the bytes written. The
  format strings and `%li` are ASCII; `%ls` converts each wide character with the C
  runtime's `wctomb` and stops the whole output at the first character that cannot be
  converted.
* A `HANDLE` is a `Nat`, `0` being the null handle.
-/

namespace Shim

/-- Wide string: a list of `wchar_t` code units. -/
abbrev WString := List Nat

/-- Wide string literal `L"..."` (without its terminator). -/
def L (s : String) : WString := s.toList.map Char.toNat

/-- Windows `MAX_PATH`. -/
def MAX_PATH : Nat := 260

/-- Value of `ERROR_ELEVATION_REQUIRED` (shim.cpp line 14). -/
def ERROR_ELEVATION_REQUIRED : Nat := 740

/-- `ARRAYSIZE(linebuf)` for `wchar_t linebuf[1<<14]` (shim.cpp line 79). -/
def LINEBUF_LEN : Nat := 2 ^ 14

/-- The C string that starts at the beginning of `buf`: everything before the first
null character (what `wcslen`, `std::wstring_view(const wchar_t*)`, `%ls`,
`wstring::append(const wchar_t*)` and the Win32 `LPCWSTR` parameters read). -/
def wcsview (buf : List Nat) : WString := buf.takeWhile (fun c => c ≠ 0)

/-- `wcslen(p)` where `p` points at the beginning of `buf`. -/
def wcslen (buf : List Nat) : Nat := (wcsview buf).length

/-- Bounds-checked `buf[i] = v`; `none` when index `i` is outside the buffer. -/
def store (buf : List Nat) (i : Int) (v : Nat) : Option (List Nat) :=
  if 0 ≤ i ∧ i.toNat < buf.length then some (buf.set i.toNat v) else none

/-- Bounds-checked `wmemcpy(buf + off, src, n)`: copies the first `n` elements of `src`
to positions `off .. off + n - 1`; `none` when the source or destination range is
outside its array. -/
def wmemcpy (buf : List Nat) (off : Int) (src : List Nat) (n : Nat) : Option (List Nat) :=
  if 0 ≤ off ∧ off.toNat + n ≤ buf.length ∧ n ≤ src.length then
    some (buf.take off.toNat ++ src.take n ++ buf.drop (off.toNat + n))
  else none

/-- `std::wstring_view::substr(pos, n)` for `pos ≤ size()`. -/
def substr (s : WString) (pos n : Nat) : WString := (s.drop pos).take n

/-! ## The environment -/

/-- Outcome of `CreateProcessW`: the two handles of `PROCESS_INFORMATION`, or the
value `GetLastError()` reports after the failure. -/
inductive CreateResult where
  | ok (hProcess hThread : Nat)
  | fail (lastError : Nat)
  deriving DecidableEq, Repr

/-- Outcome of `ShellExecuteExW` with `SEE_MASK_NOCLOSEPROCESS`: `sei.hProcess`
(null when no process was launched), or the value `GetLastError()` reports. -/
inductive ShellResult where
  | ok (hProcess : Nat)
  | fail (lastError : Nat)
  deriving DecidableEq, Repr

/-- Everything `shim.cpp` obtains from the operating system and the C runtime. -/
structure Env where
  /-- Full path of the running executable; `none` when `GetModuleFileNameW` fails. -/
  modulePath : Option WString
  /-- Content of the uninitialised stack array `filename` before the first write. -/
  stack : Nat → Nat
  /-- The wide characters the stream delivers when `_wfopen_s(&fp, name, L"r,ccs=UTF-8")`
  succeeds on `name`; `none` when the file cannot be opened. -/
  openFile : WString → Option (List Nat)
  /-- Text `GetCommandLineW()` points to (before its terminator). -/
  commandLine : WString
  /-- Text of `argv[0]` (before its terminator). -/
  argv0 : WString
  /-- Return value of `SHGetFileInfoW(path, -1, &sfi, sizeof(sfi), SHGFI_EXETYPE)`. -/
  exeType : Nat
  /-- Outcome of the `CreateProcessW` call. -/
  createProcess : CreateResult
  /-- Outcome of the `ShellExecuteExW` call. -/
  shellExecute : ShellResult
  /-- Whether `SetConsoleCtrlHandler(CtrlHandler, TRUE)` succeeds. -/
  setCtrlHandlerOk : Bool
  /-- Exit code `GetExitCodeProcess` stores after the wait; `none` when the call fails
  and leaves `exitCode` untouched. -/
  exitCode : Option Nat
  /-- Conversion of one wide character to the bytes of the narrow stream by the C
  runtime (`wctomb` in the locale of the process, which `shim.cpp` never changes);
  `none` when the character cannot be represented. -/
  wctomb : Nat → Option (List Nat)

/-- Observable steps of one run, in program order. Pure queries (`GetModuleFileNameW`,
`GetCommandLineW`, `GetStartupInfoW`, `GetLastError`), the reads of the sidecar stream
and the handle releases of the destructors are not recorded. `stderr` carries the bytes
one `fprintf(stderr, ...)` call writes to the narrow stream. -/
inductive Effect where
  | stderr (text : WString)
  | wfopen (name : WString)
  | SHGetFileInfoW (path : WString)
  | FreeConsole
  | CreateJobObject
  | SetInformationJobObject
  | CreateProcessW (cmd : WString)
  | ResumeThread (hThread : Nat)
  | ShellExecuteExW (file params : WString)
  | SetConsoleCtrlHandler
  | AssignProcessToJobObject (hProcess : Nat)
  | WaitForSingleObject (hProcess : Nat)
  | GetExitCodeProcess (hProcess : Nat)
  deriving DecidableEq, Repr

/-! ## `GetShimInfo` (shim.cpp lines 53-110) -/

/-- `GetModuleFileNameW(nullptr, buf, nSize)`: on success copies the path and its
terminator and returns the path length when that is below `nSize`; otherwise copies
the first `nSize - 1` characters and a terminator and returns `nSize`; returns `0` and
leaves the buffer alone on failure. -/
def GetModuleFileNameW (env : Env) (buf : List Nat) (nSize : Nat) : List Nat × Nat :=
  match env.modulePath with
  | none => (buf, 0)
  | some p =>
    if p.length < nSize then
      (p ++ [0] ++ buf.drop (p.length + 1), p.length)
    else
      (p.take (nSize - 1) ++ [0] ++ buf.drop nSize, nSize)

/-- Lines 66-67: `wmemcpy(filename + filenameSize - 3, L"shim", 4U);`
`filename[filenameSize + 1] = L'\0';`. -/
def shimFileName (filename : List Nat) (filenameSize : Nat) : Option (List Nat) :=
  match wmemcpy filename ((filenameSize : Int) - 3) (L "shim" ++ [0]) 4 with
  | none => none
  | some b => store b ((filenameSize : Int) + 1) 0

/-- The characters one `fgetws` call consumes from the stream and the stream that
remains: it stops after `k` characters, after a newline, or at the end of the stream. -/
def fgetwsRead : List Nat → Nat → List Nat × List Nat
  | [], _ => ([], [])
  | c :: s, k =>
    if k = 0 then ([], c :: s)
    else if c = 10 then ([c], s)
    else (c :: (fgetwsRead s (k - 1)).1, (fgetwsRead s (k - 1)).2)

/-- `fgetws(buf, n, fp)`: `none` (a null return) at end of stream; otherwise the content
of `buf` (the characters read and a terminator) and the rest of the stream. -/
def fgetws (n : Nat) (stream : List Nat) : Option (List Nat × List Nat) :=
  match stream with
  | [] => none
  | _ :: _ => some ((fgetwsRead stream (n - 1)).1 ++ [0], (fgetwsRead stream (n - 1)).2)

/-- The value stored by `emplace(line.data() + 7, line.size() - 7 - (line.back() == L'\n' ? 1 : 0))`
(lines 98 and 104). -/
def lineValue (line : WString) : WString :=
  substr line 7 (line.length - 7 - (if line.getLast? = some 10 then 1 else 0))

/-- Body of the read loop after a successful `fgetws` (lines 89-106): the effect of one
`line` on `path` and `args`. -/
def lineStep (st : Option WString × Option WString) (line : WString) :
    Option WString × Option WString :=
  if line.length < 7 ∨ substr line 4 3 ≠ L " = " then st
  else if substr line 0 4 = L "path" then (some (lineValue line), st.2)
  else if substr line 0 4 = L "args" then (st.1, some (lineValue line))
  else st

/-- The `while (true)` loop of lines 82-107. `fuel` bounds the number of iterations of
the model; `none` is returned only if it runs out (`readShim_linesOf` shows that
`stream.length + 1` iterations always suffice). -/
def readShim : Nat → List Nat → Option WString × Option WString →
    Option (Option WString × Option WString)
  | 0, _, _ => none
  | fuel + 1, stream, st =>
    match fgetws LINEBUF_LEN stream with
    | none => some st
    | some (linebuf, rest) => readShim fuel rest (lineStep st (wcsview linebuf))

/-- The array `wchar_t filename[MAX_PATH + 2]` as declared, before any write. -/
def filenameInit (env : Env) : List Nat := (List.range (MAX_PATH + 2)).map env.stack

/-- `GetShimInfo()`: the effects and the returned pair `{path, args}`; `none` for
undefined behaviour (a write outside `filename`). -/
def GetShimInfo (env : Env) : List Effect × Option (Option WString × Option WString) :=
  let r := GetModuleFileNameW env (filenameInit env) MAX_PATH
  if r.2 ≥ MAX_PATH then
    ([.stderr (L "The filename of the program is too long to handle.\n")], some (none, none))
  else
    match shimFileName r.1 r.2 with
    | none => ([], none)
    | some filename =>
      match env.openFile (wcsview filename) with
      | none =>
        ([.wfopen (wcsview filename), .stderr (L "Cannot open shim file for read.\n")],
          some (none, none))
      | some stream =>
        ([.wfopen (wcsview filename)], readShim (stream.length + 1) stream (none, none))

/-- The lines the read loop of `GetShimInfo` sees, in file order: the C string left in
`linebuf` by each successful `fgetws` (same iteration bound as `readShim`). -/
def shimLines : Nat → List Nat → List WString
  | 0, _ => []
  | fuel + 1, stream =>
    match fgetws LINEBUF_LEN stream with
    | none => []
    | some (linebuf, rest) => wcsview linebuf :: shimLines fuel rest

/-- The lines of a sidecar stream as the read loop sees them. -/
def linesOf (stream : List Nat) : List WString := shimLines (stream.length + 1) stream

/-- The lines of a text stream: maximal runs of characters, each ended by its newline
(the last one possibly without). -/
def fileLines : List Nat → List (List Nat)
  | [] => []
  | c :: s =>
    if c = 10 then [10] :: fileLines s
    else
      match fileLines s with
      | [] => [[c]]
      | l :: ls => (c :: l) :: ls

/-! ## `MakeProcess` (shim.cpp lines 112-176) -/

/-- Lines 118-122: the command-line buffer `cmd`, a zero-initialised vector of
`path->size() + args->size() + 2` elements filled by two `wmemcpy` and two stores. -/
def makeCmd (path args : WString) : Option (List Nat) :=
  let cmd0 := List.replicate (path.length + args.length + 2) 0
  match wmemcpy cmd0 0 (path ++ [0]) path.length with
  | none => none
  | some cmd1 =>
    match store cmd1 path.length 32 with
    | none => none
    | some cmd2 =>
      match wmemcpy cmd2 ((path.length : Int) + 1) (args ++ [0]) args.length with
      | none => none
      | some cmd3 => store cmd3 ((path.length : Int) + 1 + args.length) 0

/-- Text printed by `%li` for a `DWORD` argument (read as a 32-bit `long`). -/
def fmtLong (v : Nat) : WString :=
  if v % 2 ^ 32 < 2 ^ 31 then L (toString (v % 2 ^ 32))
  else L "-" ++ L (toString (2 ^ 32 - v % 2 ^ 32))

/-- Lines 169-173: installing the control handler, with the warning on failure. -/
def installCtrlHandler (env : Env) : List Effect :=
  if env.setCtrlHandlerOk then [.SetConsoleCtrlHandler]
  else [.SetConsoleCtrlHandler,
        .stderr (L "Could not set control handler; Ctrl-C behavior may be invalid.\n")]

/-- Output of `%ls` by the narrow `fprintf`: the bytes of the wide characters converted
one by one, up to the first character that cannot be converted, and whether the whole
string was converted. -/
def narrowLs (wctomb : Nat → Option (List Nat)) : WString → List Nat × Bool
  | [] => ([], true)
  | c :: s =>
    match wctomb c with
    | none => ([], false)
    | some bytes => (bytes ++ (narrowLs wctomb s).1, (narrowLs wctomb s).2)

/-- Bytes written by line 164,
`fprintf(stderr, "Could not create process with command '%ls'.\n", cmd.data())`:
when a character of the command cannot be converted the output ends before it and the
rest of the format is not written. -/
def createFailureText (wctomb : Nat → Option (List Nat)) (cmd : WString) : List Nat :=
  if (narrowLs wctomb cmd).2 then
    L "Could not create process with command '" ++ (narrowLs wctomb cmd).1 ++ L "'.\n"
  else
    L "Could not create process with command '" ++ (narrowLs wctomb cmd).1

/-- `MakeProcess(path, args)`: the effects and the returned pair
`{processHandle, threadHandle}`; `none` for undefined behaviour. -/
def MakeProcess (env : Env) (path args : WString) : List Effect × Option (Nat × Nat) :=
  match makeCmd path args with
  | none => ([], none)
  | some cmd =>
    match env.createProcess with
    | .ok hProcess hThread =>
      ([.CreateProcessW (wcsview cmd), .ResumeThread hThread] ++ installCtrlHandler env,
        some (hProcess, hThread))
    | .fail err =>
      if err = ERROR_ELEVATION_REQUIRED then
        match env.shellExecute with
        | .fail err2 =>
          ([.CreateProcessW (wcsview cmd),
            .ShellExecuteExW (wcsview (path ++ [0])) (wcsview (args ++ [0])),
            .stderr (L "Unable to create elevated process: error " ++ fmtLong err2 ++ L ".")],
            some (0, 0))
        | .ok hProcess =>
          ([.CreateProcessW (wcsview cmd),
            .ShellExecuteExW (wcsview (path ++ [0])) (wcsview (args ++ [0]))]
            ++ installCtrlHandler env,
            some (hProcess, 0))
      else
        ([.CreateProcessW (wcsview cmd),
          .stderr (createFailureText env.wctomb (wcsview cmd))],
          some (0, 0))

/-! ## `wmain` (shim.cpp lines 178-237) -/

/-- Lines 193-201: the offset added to the command-line pointer,
`wcslen(argv[0]) + 2` when `cmd[0] == L'"'` and `wcslen(argv[0])` otherwise. -/
def argOffset (cmd argv0 : WString) : Nat :=
  if (cmd ++ [0]).head? = some 34 then wcslen (argv0 ++ [0]) + 2 else wcslen (argv0 ++ [0])

/-- Lines 193-201: the C string at `cmd + offset`, which `args->append` copies; `none`
when the pointer lies beyond the terminator of the command line. -/
def forwardedArgs (cmd argv0 : WString) : Option WString :=
  if argOffset cmd argv0 < (cmd ++ [0]).length then
    some (wcsview ((cmd ++ [0]).drop (argOffset cmd argv0)))
  else none

/-- `HIWORD(x)`. -/
def HIWORD (x : Nat) : Nat := (x / 2 ^ 16) % 2 ^ 16

/-- `wmain`: the effects of the run and the exit status (`none` for undefined
behaviour). The `DWORD` exit code is returned through `int`, which keeps its 32 bits. -/
def wmain (env : Env) : List Effect × Option Nat :=
  match GetShimInfo env with
  | (t0, none) => (t0, none)
  | (t0, some (none, _)) => (t0 ++ [.stderr (L "Could not read shim file.\n")], some 1)
  | (t0, some (some path, args0)) =>
    match forwardedArgs env.commandLine env.argv0 with
    | none => (t0, none)
    | some fwd =>
      let args := args0.getD [] ++ fwd
      let isWindowsApp : Bool := HIWORD env.exeType != 0
      let t1 := t0 ++ [.SHGetFileInfoW (wcsview (path ++ [0]))]
        ++ (if isWindowsApp then [Effect.FreeConsole] else [])
        ++ [.CreateJobObject, .SetInformationJobObject]
      match MakeProcess env path args with
      | (t2, none) => (t1 ++ t2, none)
      | (t2, some (processHandle, _)) =>
        if processHandle ≠ 0 ∧ isWindowsApp = false then
          (t1 ++ t2 ++ [.AssignProcessToJobObject processHandle,
              .WaitForSingleObject processHandle, .GetExitCodeProcess processHandle],
            some (match env.exitCode with
                  | some c => c % 2 ^ 32
                  | none => 0))
        else
          (t1 ++ t2, some (if processHandle ≠ 0 then 0 else 1))

/-! ## Vocabulary of the specification

The four `spec...` definitions below are not taken from `shim.cpp`; they restate the
words of the specification so that the code can be compared with them. The remaining
definitions of this section name situations of the environment and test inputs. -/

/-- Specification: a line is recognised for `key` when it starts with the key followed
by the separator `" = "`. -/
def specRecognised (key line : WString) : Bool := (key ++ L " = ").isPrefixOf line

/-- Specification: the value of a recognised line is everything after the 7-character
`key = ` part, with a trailing newline removed. -/
def specValue (line : WString) : WString :=
  if (line.drop 7).getLast? = some 10 then (line.drop 7).dropLast else line.drop 7

/-- Specification: the value of the last line recognised for `key`, if there is one. -/
def specLastValue (key : WString) (lines : List WString) : Option WString :=
  ((lines.filter (specRecognised key)).getLast?).map specValue

/-- Specification: the path with its file extension (the text after its last dot)
replaced by `ext`. -/
def specReplaceExtension (p ext : WString) : WString :=
  (p.reverse.dropWhile (fun c => c != 46)).reverse ++ ext

/-- The sidecar of `env` can be opened and delivers `stream`: the module path `p` is a
C string of at least 3 and fewer than `MAX_PATH` characters, and the file named by `p`
with its last three characters replaced by `shim` opens with content `stream`. -/
def SidecarStream (env : Env) (stream : List Nat) : Prop :=
  ∃ p, env.modulePath = some p ∧ 0 ∉ p ∧ 3 ≤ p.length ∧ p.length < MAX_PATH ∧
    env.openFile (p.take (p.length - 3) ++ L "shim") = some stream

/-- Every step other than opening the sidecar and writing a diagnostic: the executable
type query and all steps that create, configure or wait on a process, a job object or
the console. -/
def Effect.isLaunchStep : Effect → Bool
  | .stderr _ => false
  | .wfopen _ => false
  | _ => true

/-- The steps that wait on the child or query its exit code. -/
def Effect.isWaitStep : Effect → Bool
  | .WaitForSingleObject _ => true
  | .GetExitCodeProcess _ => true
  | _ => false

/-- The `wctomb` of the "C" locale of the Microsoft C runtime, the locale of a process
that never calls `setlocale`: a wide character up to 255 becomes one byte, any other
character cannot be converted. -/
def cLocale (c : Nat) : Option (List Nat) := if c ≤ 255 then some [c] else none

/-- A test environment: the launcher is `C:\s\shim.exe`, invoked as `cmd`; its
sidecar has content `file`; the target has executable type `exeType`; the external
calls have the given outcomes. -/
def testEnv (file cmd : WString) (exeType : Nat) (cp : CreateResult) (se : ShellResult)
    (exitCode : Option Nat) : Env where
  modulePath := some (L "C:\\s\\shim.exe")
  stack := fun _ => 52428
  openFile := fun name => if name = L "C:\\s\\shim.shim" then some file else none
  commandLine := cmd
  argv0 := L "shim.exe"
  exeType := exeType
  createProcess := cp
  shellExecute := se
  setCtrlHandlerOk := true
  exitCode := exitCode
  wctomb := cLocale

/-- The sidecar of the specification's scenario. -/
def scenarioFile : WString := L "path = C:\\tools\\real.exe\nargs = --mode=batch\n"

/-- `SHGFI_EXETYPE` result for a console application: `PE` in the low word, high word 0. -/
def EXE_CONSOLE : Nat := 17744

/-- `SHGFI_EXETYPE` result for a Windows application: `PE` in the low word, version
4.0 in the high word. -/
def EXE_WINDOWS : Nat := 1024 * 2 ^ 16 + 17744

/-- A test environment whose executable is `p` and whose sidecar cannot be opened. -/
def moduleEnv (p : WString) : Env where
  modulePath := some p
  stack := fun _ => 52428
  openFile := fun _ => none
  commandLine := []
  argv0 := []
  exeType := EXE_CONSOLE
  createProcess := .fail 2
  shellExecute := .fail 2
  setCtrlHandlerOk := true
  exitCode := none
  wctomb := cLocale

/-- A sidecar made of one line that is longer than one `fgetws` read: 16383 times `x`,
then `path = evil` and a newline. -/
def longLineFile : WString := List.replicate (LINEBUF_LEN - 1) 120 ++ L "path = evil\n"

/-- A line longer than one `fgetws` read: 16383 times `x`, then `path = c` and a
newline. -/
def longLineC : WString := List.replicate (LINEBUF_LEN - 1) 120 ++ L "path = c\n"

/-- A sidecar of three lines: `path = a`, `path = b` and the long line `longLineC`. -/
def twoPathsFile : WString := L "path = a\n" ++ (L "path = b\n" ++ longLineC)

/-- A sidecar whose target path holds the character U+4E2D (20013), which the "C"
locale cannot convert: `path = C:\t\<U+4E2D>.exe` and a newline. -/
def wideNameFile : WString := L "path = C:\\t\\" ++ [20013] ++ L ".exe\n"

/-! ## Auxiliary facts about buffers and C strings -/

set_option maxRecDepth 100000

theorem L_sep : L " = " = [32, 61, 32] := by decide

theorem L_path : L "path" = [112, 97, 116, 104] := by decide

theorem L_args : L "args" = [97, 114, 103, 115] := by decide

theorem L_shim : L "shim" = [115, 104, 105, 109] := by decide

theorem L_space : L " " = [32] := by decide

theorem wcsview_append_zero (s t : List Nat) (h : 0 ∉ s) : wcsview (s ++ 0 :: t) = s := by
  induction s with
  | nil => simp [wcsview]
  | cons c s ih =>
    have hc : c ≠ 0 := fun e => h (by simp [e])
    have hs : 0 ∉ s := fun m => h (by simp [m])
    have e := ih hs
    unfold wcsview at e ⊢
    rw [List.cons_append, List.takeWhile_cons_of_pos (by simpa using hc), e]

theorem wcsview_not_mem (buf : List Nat) : 0 ∉ wcsview buf := by
  intro h
  have := List.mem_takeWhile_imp h
  simp at this

theorem wcsview_of_not_mem (s : List Nat) (h : 0 ∉ s) : wcsview s = s := by
  unfold wcsview
  rw [List.takeWhile_eq_self_iff]
  intro x hx
  have : x ≠ 0 := fun e => h (e ▸ hx)
  simpa using this

theorem wcsview_terminated (s : List Nat) : wcsview (s ++ [0]) = wcsview s := by
  induction s with
  | nil => simp [wcsview]
  | cons c s ih =>
    unfold wcsview at ih ⊢
    by_cases hc : c = 0
    · subst hc; simp
    · rw [List.cons_append, List.takeWhile_cons_of_pos (by simpa using hc),
        List.takeWhile_cons_of_pos (by simpa using hc), ih]

theorem wmemcpy_at (pre mid post src extra : List Nat) (off : Int)
    (ho : off = (pre.length : Int)) (hl : src.length = mid.length) :
    wmemcpy (pre ++ mid ++ post) off (src ++ extra) mid.length = some (pre ++ src ++ post) := by
  subst ho
  have h1 : ((pre.length : Int)).toNat = pre.length := by simp
  unfold wmemcpy
  rw [h1]
  rw [if_pos (by simp; omega)]
  congr 1
  have e1 : List.take pre.length (pre ++ mid ++ post) = pre := by
    rw [List.append_assoc, List.take_left']; rfl
  have e2 : List.take mid.length (src ++ extra) = src := by
    rw [← hl, List.take_left']; rfl
  have e3 : List.drop (pre.length + mid.length) (pre ++ mid ++ post) = post := by
    rw [List.drop_left']; simp
  rw [e1, e2, e3]

theorem store_at (pre post : List Nat) (x v : Nat) (off : Int) (ho : off = (pre.length : Int)) :
    store (pre ++ x :: post) off v = some (pre ++ v :: post) := by
  subst ho
  unfold store
  have h1 : ((pre.length : Int)).toNat = pre.length := by simp
  rw [h1, if_pos (by simp)]
  simp

theorem makeCmd_eq (path args : WString) :
    makeCmd path args = some (path ++ 32 :: args ++ [0]) := by
  unfold makeCmd
  have e0 : List.replicate (path.length + args.length + 2) 0
      = [] ++ List.replicate path.length 0 ++ List.replicate (args.length + 2) 0 := by
    rw [List.nil_append, ← List.replicate_add, Nat.add_assoc]
  have w1 := wmemcpy_at [] (List.replicate path.length 0) (List.replicate (args.length + 2) 0)
    path [0] 0 (by simp) (by simp)
  rw [List.length_replicate] at w1
  simp only []
  rw [e0, w1]
  simp only [List.nil_append]
  have e1 : List.replicate (args.length + 2) 0 = 0 :: (List.replicate args.length 0 ++ [0]) := by
    rw [List.replicate_succ, List.replicate_succ']
  rw [e1, store_at path _ 0 32 _ rfl]
  simp only []
  have w2 := wmemcpy_at (path ++ [32]) (List.replicate args.length 0) [0] args [0]
    ((path.length : Int) + 1) (by simp) (by simp)
  rw [List.length_replicate] at w2
  have e2 : path ++ 32 :: (List.replicate args.length 0 ++ [0])
      = path ++ [32] ++ List.replicate args.length 0 ++ [0] := by simp
  rw [e2, w2]
  simp only []
  have s2 := store_at (path ++ [32] ++ args) [] 0 0 ((path.length : Int) + 1 + args.length)
    (by simp; omega)
  rw [s2]
  simp

theorem cmd_text (path args : WString) (hp : 0 ∉ path) (ha : 0 ∉ args) :
    wcsview (path ++ 32 :: args ++ [0]) = path ++ L " " ++ args := by
  have h : 0 ∉ path ++ L " " ++ args := by
    rw [L_space]; simp; exact ⟨hp, ha⟩
  have e : path ++ 32 :: args ++ [0] = (path ++ L " " ++ args) ++ 0 :: [] := by
    rw [L_space]; simp
  rw [e, wcsview_append_zero _ _ h]

/-! ## C1: the composed command line -/

/-- C1. For all texts `P`, `A`, `F` without an embedded null, the buffer `cmd` that
`MakeProcess` builds from `path = P` and `args = A` followed by the C string `F` (as
appended in `wmain`) is exactly `P ++ " " ++ A ++ F` followed by one null; that null is
the only one in the buffer, so the command line `CreateProcessW` receives, which is also
the first effect of `MakeProcess`, is `P ++ " " ++ A ++ F`, unquoted and unescaped. -/
theorem command_line_exact (env : Env) (P A F : WString)
    (hP : 0 ∉ P) (hA : 0 ∉ A) (hF : 0 ∉ F) :
    makeCmd P (A ++ wcsview (F ++ [0])) = some (P ++ L " " ++ A ++ F ++ [0]) ∧
    wcsview (P ++ L " " ++ A ++ F ++ [0]) = P ++ L " " ++ A ++ F ∧
    (P ++ L " " ++ A ++ F ++ [0]).count 0 = 1 ∧
    (MakeProcess env P (A ++ wcsview (F ++ [0]))).1.head? =
      some (Effect.CreateProcessW (P ++ L " " ++ A ++ F)) := by
  have hF' : wcsview (F ++ [0]) = F := wcsview_append_zero F [] hF
  have hAF : 0 ∉ A ++ F := by simp; exact ⟨hA, hF⟩
  have hall : 0 ∉ P ++ L " " ++ A ++ F := by
    rw [L_space]; simp; exact ⟨hP, hA, hF⟩
  have hcmd : makeCmd P (A ++ F) = some (P ++ L " " ++ A ++ F ++ [0]) := by
    rw [makeCmd_eq, L_space]; simp
  have htext : wcsview (P ++ L " " ++ A ++ F ++ [0]) = P ++ L " " ++ A ++ F :=
    wcsview_append_zero _ [] hall
  rw [hF']
  refine ⟨hcmd, htext, ?_, ?_⟩
  · rw [List.count_append, List.count_eq_zero_of_not_mem hall]; rfl
  · unfold MakeProcess
    rw [hcmd]
    simp only [htext]
    cases env.createProcess with
    | ok hp ht => rfl
    | fail err =>
      simp only []
      split
      · cases env.shellExecute <;> rfl
      · rfl

/-- C1, the scenario of the specification: `C:\tools\real.exe`, `--mode=batch` and
the forwarded ` --verbose` give `C:\tools\real.exe --mode=batch --verbose`. -/
theorem command_line_exact_witness :
    makeCmd (L "C:\\tools\\real.exe") (L "--mode=batch" ++ wcsview (L " --verbose" ++ [0]))
      = some (L "C:\\tools\\real.exe --mode=batch --verbose" ++ [0]) :=
  (command_line_exact (testEnv scenarioFile (L "shim.exe --verbose") EXE_CONSOLE
      (.ok 100 104) (.fail 5) (some 42))
    (L "C:\\tools\\real.exe") (L "--mode=batch") (L " --verbose")
    (by decide) (by decide) (by decide)).1

/-! ## The read loop -/

theorem fgetwsRead_append (s : List Nat) (k : Nat) :
    (fgetwsRead s k).1 ++ (fgetwsRead s k).2 = s := by
  induction s generalizing k with
  | nil => rfl
  | cons c s ih =>
    unfold fgetwsRead
    split
    · rfl
    · split
      · rfl
      · simp [ih]

theorem fgetwsRead_progress (c : Nat) (s : List Nat) (k : Nat) (hk : 0 < k) :
    (fgetwsRead (c :: s) k).2.length ≤ s.length := by
  have h := congrArg List.length (fgetwsRead_append (c :: s) k)
  have h1 : 1 ≤ (fgetwsRead (c :: s) k).1.length := by
    unfold fgetwsRead
    rw [if_neg (by omega)]
    split <;> simp
  simp at h
  omega

theorem fgetwsRead_line (body rest : List Nat) (k : Nat) (hb : 10 ∉ body)
    (hk : body.length < k) : fgetwsRead (body ++ 10 :: rest) k = (body ++ [10], rest) := by
  induction body generalizing k with
  | nil =>
    simp only [List.nil_append]
    unfold fgetwsRead
    rw [if_neg (by simp at hk; omega), if_pos rfl]
  | cons c s ih =>
    have hc : c ≠ 10 := fun e => hb (by simp [e])
    have hs : 10 ∉ s := fun m => hb (by simp [m])
    simp only [List.cons_append]
    unfold fgetwsRead
    simp at hk
    rw [if_neg (by omega), if_neg hc, ih (k - 1) hs (by omega)]

theorem fgetwsRead_full (chunk rest : List Nat) (hb : 10 ∉ chunk) :
    fgetwsRead (chunk ++ rest) chunk.length = (chunk, rest) := by
  induction chunk with
  | nil => cases rest <;> simp [fgetwsRead]
  | cons c s ih =>
    have hc : c ≠ 10 := fun e => hb (by simp [e])
    have hs : 10 ∉ s := fun m => hb (by simp [m])
    simp only [List.cons_append, List.length_cons]
    unfold fgetwsRead
    rw [if_neg (by omega), if_neg hc]
    simp [ih hs]

theorem fgetwsRead_eof (body : List Nat) (k : Nat) (hb : 10 ∉ body) (hk : body.length ≤ k) :
    fgetwsRead body k = (body, []) := by
  induction body generalizing k with
  | nil => rfl
  | cons c s ih =>
    have hc : c ≠ 10 := fun e => hb (by simp [e])
    have hs : 10 ∉ s := fun m => hb (by simp [m])
    unfold fgetwsRead
    simp at hk
    rw [if_neg (by omega), if_neg hc, ih (k - 1) hs (by omega)]

theorem shimLines_step (fuel c : Nat) (s : List Nat) :
    shimLines (fuel + 1) (c :: s) = wcsview ((fgetwsRead (c :: s) (LINEBUF_LEN - 1)).1 ++ [0])
      :: shimLines fuel (fgetwsRead (c :: s) (LINEBUF_LEN - 1)).2 := rfl

theorem readShim_step (fuel c : Nat) (s : List Nat) (st : Option WString × Option WString) :
    readShim (fuel + 1) (c :: s) st = readShim fuel (fgetwsRead (c :: s) (LINEBUF_LEN - 1)).2
      (lineStep st (wcsview ((fgetwsRead (c :: s) (LINEBUF_LEN - 1)).1 ++ [0]))) := rfl

theorem readShim_lines (fuel : Nat) (s : List Nat) (st : Option WString × Option WString)
    (h : s.length < fuel) :
    readShim fuel s st = some ((shimLines fuel s).foldl lineStep st) := by
  induction fuel generalizing s st with
  | zero => omega
  | succ n ih =>
    cases s with
    | nil => rfl
    | cons c s =>
      have hp := fgetwsRead_progress c s (LINEBUF_LEN - 1) (by decide)
      rw [readShim_step, shimLines_step, ih _ _ (by simp at h; omega)]
      rfl

theorem shimLines_fuel (fuel : Nat) (s : List Nat) (h : s.length < fuel) :
    shimLines fuel s = linesOf s := by
  induction fuel using Nat.strong_induction_on generalizing s with
  | _ n ih =>
    cases n with
    | zero => omega
    | succ n =>
      cases s with
      | nil => rfl
      | cons c s =>
        have hp := fgetwsRead_progress c s (LINEBUF_LEN - 1) (by decide)
        simp at h
        show shimLines (n + 1) (c :: s) = shimLines (s.length + 1 + 1) (c :: s)
        rw [shimLines_step, shimLines_step, ih n (by omega) _ (by omega),
          ih (s.length + 1) (by omega) _ (by omega)]

theorem readShim_linesOf (s : List Nat) (st : Option WString × Option WString) :
    readShim (s.length + 1) s st = some ((linesOf s).foldl lineStep st) := by
  rw [readShim_lines _ _ _ (by omega)]; rfl

theorem linesOf_nil : linesOf [] = [] := rfl

theorem linesOf_cons (c : Nat) (s : List Nat) :
    linesOf (c :: s) = wcsview ((fgetwsRead (c :: s) (LINEBUF_LEN - 1)).1)
      :: linesOf (fgetwsRead (c :: s) (LINEBUF_LEN - 1)).2 := by
  have hp := fgetwsRead_progress c s (LINEBUF_LEN - 1) (by decide)
  show shimLines (s.length + 1 + 1) (c :: s) = _
  rw [shimLines_step, shimLines_fuel _ _ (by omega), wcsview_terminated]

theorem linesOf_line (body rest : List Nat) (hb : 10 ∉ body)
    (hk : body.length + 1 < LINEBUF_LEN) :
    linesOf (body ++ 10 :: rest) = wcsview (body ++ [10]) :: linesOf rest := by
  have h := fgetwsRead_line body rest (LINEBUF_LEN - 1) hb (by omega)
  cases hbr : body ++ 10 :: rest with
  | nil => simp at hbr
  | cons c s =>
    rw [linesOf_cons, ← hbr, h]

theorem linesOf_last (body : List Nat) (hne : body ≠ []) (hb : 10 ∉ body)
    (hk : body.length < LINEBUF_LEN) : linesOf body = [wcsview body] := by
  have h := fgetwsRead_eof body (LINEBUF_LEN - 1) hb (by omega)
  cases hbr : body with
  | nil => exact absurd hbr hne
  | cons c s =>
    rw [linesOf_cons, ← hbr, h]
    rfl

theorem linesOf_full (chunk rest : List Nat) (hb : 10 ∉ chunk)
    (hk : chunk.length = LINEBUF_LEN - 1) :
    linesOf (chunk ++ rest) = wcsview chunk :: linesOf rest := by
  have h := fgetwsRead_full chunk rest hb
  rw [hk] at h
  cases hbr : chunk ++ rest with
  | nil =>
    have : chunk = [] := (List.append_eq_nil.mp hbr).1
    rw [this] at hk
    exact absurd hk (by decide)
  | cons c s =>
    rw [linesOf_cons, ← hbr, h]

theorem fileLines_eq_nil (s : List Nat) (h : fileLines s = []) : s = [] := by
  cases s with
  | nil => rfl
  | cons c s =>
    unfold fileLines at h
    split at h
    · simp at h
    · split at h <;> simp at h

theorem fgetwsRead_fileLines (s : List Nat) (k : Nat) (l : List Nat) (ls : List (List Nat))
    (h : fileLines s = l :: ls) (hk : l.length ≤ k) :
    (fgetwsRead s k).1 = l ∧ fileLines (fgetwsRead s k).2 = ls := by
  induction s generalizing k l ls with
  | nil => simp [fileLines] at h
  | cons c s ih =>
    unfold fileLines at h
    unfold fgetwsRead
    by_cases hc : c = 10
    · rw [if_pos hc] at h
      simp only [List.cons.injEq] at h
      obtain ⟨h1, h2⟩ := h
      subst h1
      rw [if_neg (by simp at hk; omega), if_pos hc, hc]
      exact ⟨rfl, h2⟩
    · rw [if_neg hc] at h
      cases hf : fileLines s with
      | nil =>
        rw [hf] at h
        simp only [List.cons.injEq] at h
        obtain ⟨h1, h2⟩ := h
        subst h1
        have hs := fileLines_eq_nil s hf
        subst hs
        rw [if_neg (by simp at hk; omega), if_neg hc]
        exact ⟨rfl, h2 ▸ rfl⟩
      | cons l' ls' =>
        rw [hf] at h
        simp only [List.cons.injEq] at h
        obtain ⟨h1, h2⟩ := h
        subst h1
        obtain ⟨e1, e2⟩ := ih (k - 1) l' ls' hf (by simp at hk; omega)
        rw [if_neg (by simp at hk; omega), if_neg hc, e1, e2]
        exact ⟨rfl, h2⟩

theorem linesOf_fileLines_bounded (n : Nat) (s : List Nat) (hn : s.length ≤ n)
    (h : ∀ l ∈ fileLines s, l.length < LINEBUF_LEN) :
    linesOf s = (fileLines s).map wcsview := by
  induction n generalizing s with
  | zero =>
    have : s = [] := List.length_eq_zero.mp (Nat.le_zero.mp hn)
    subst this
    rfl
  | succ n ih =>
    cases s with
    | nil => rfl
    | cons c s =>
      cases hf : fileLines (c :: s) with
      | nil => exact absurd (fileLines_eq_nil _ hf) (by simp)
      | cons l ls =>
        rw [hf] at h
        have hl := h l (by simp)
        obtain ⟨e1, e2⟩ := fgetwsRead_fileLines (c :: s) (LINEBUF_LEN - 1) l ls hf (by omega)
        have hp := fgetwsRead_progress c s (LINEBUF_LEN - 1) (by decide)
        rw [linesOf_cons, e1, ih _ (by simp at hn; omega)
          (by rw [e2]; intro m hm; exact h m (by simp [hm])), e2]
        rfl

/-- When every line of the stream fits one `fgetws` read, the lines the read loop sees
are the lines of the stream, each viewed as a C string. -/
theorem linesOf_fileLines (s : List Nat) (h : ∀ l ∈ fileLines s, l.length < LINEBUF_LEN) :
    linesOf s = (fileLines s).map wcsview :=
  linesOf_fileLines_bounded s.length s (Nat.le_refl _) h

/-! ## The loop body against the specification's vocabulary -/

theorem specRecognised_iff (key line : WString) (hk : key.length = 4) :
    specRecognised key line = true ↔
      (¬ (line.length < 7 ∨ substr line 4 3 ≠ L " = ") ∧ substr line 0 4 = key) := by
  unfold specRecognised
  rw [ List.isPrefixOf_iff_prefix]
  constructor
  · rintro ⟨v, rfl⟩
    refine ⟨?_, ?_⟩
    · rw [not_or]
      refine ⟨by simp [hk, L_sep]; omega, ?_⟩
      rw [not_not]
      unfold substr
      rw [List.append_assoc, ← hk, List.drop_left]
      simp [L_sep]
    · unfold substr
      rw [List.append_assoc, List.drop_zero, ← hk, List.take_left]
  · rintro ⟨h1, h2⟩
    rw [not_or, not_not] at h1
    refine ⟨line.drop 7, ?_⟩
    unfold substr at h1 h2
    rw [List.drop_zero] at h2
    have e : line = line.take 4 ++ ((line.drop 4).take 3 ++ (line.drop 4).drop 3) := by
      rw [List.take_append_drop, List.take_append_drop]
    rw [h1.2, h2, List.drop_drop] at e
    rw [List.append_assoc]
    exact e.symm

theorem lineValue_of_recognised (key line : WString) (hk : key.length = 4)
    (h : specRecognised key line = true) : lineValue line = specValue line := by
  unfold specRecognised at h
  rw [ List.isPrefixOf_iff_prefix] at h
  obtain ⟨v, rfl⟩ := h
  have hlen : (key ++ L " = ").length = 7 := by simp [hk, L_sep]
  have hd : (key ++ L " = " ++ v).drop 7 = v := by rw [← hlen, List.drop_left]
  unfold lineValue specValue substr
  rw [hd]
  have hl : (key ++ L " = " ++ v).length - 7 = v.length := by
    rw [List.length_append, hlen]; omega
  cases hv : v with
  | nil =>
    subst hv
    simp
  | cons a w =>
    have hne : v ≠ [] := by rw [hv]; simp
    have hlast : (key ++ L " = " ++ v).getLast? = v.getLast? := by
      rw [List.getLast?_append_of_ne_nil _ hne]
    rw [← hv, hlast, hl]
    by_cases h10 : v.getLast? = some 10
    · rw [if_pos h10, if_pos h10, List.dropLast_eq_take]
    · rw [if_neg h10, if_neg h10]; simp

theorem specRecognised_exclusive (line : WString)
    (h : specRecognised (L "path") line = true) : specRecognised (L "args") line = false := by
  rw [specRecognised_iff _ _ (by decide)] at h
  cases h2 : specRecognised (L "args") line with
  | false => rfl
  | true =>
    rw [specRecognised_iff _ _ (by decide)] at h2
    have := h.2.symm.trans h2.2
    exact absurd this (by decide)

theorem lineStep_spec (st : Option WString × Option WString) (line : WString) :
    lineStep st line =
      if specRecognised (L "path") line = true then (some (specValue line), st.2)
      else if specRecognised (L "args") line = true then (st.1, some (specValue line))
      else st := by
  unfold lineStep
  by_cases hs : line.length < 7 ∨ substr line 4 3 ≠ L " = "
  · have hp : ¬ specRecognised (L "path") line = true := by
      rw [specRecognised_iff _ _ (by decide)]; exact fun h => h.1 hs
    have ha : ¬ specRecognised (L "args") line = true := by
      rw [specRecognised_iff _ _ (by decide)]; exact fun h => h.1 hs
    rw [if_pos hs, if_neg hp, if_neg ha]
  · rw [if_neg hs]
    by_cases hp : substr line 0 4 = L "path"
    · have hr : specRecognised (L "path") line = true :=
        (specRecognised_iff _ _ (by decide)).2 ⟨hs, hp⟩
      rw [if_pos hp, if_pos hr, lineValue_of_recognised _ _ (by decide) hr]
    · have hr : ¬ specRecognised (L "path") line = true := by
        rw [specRecognised_iff _ _ (by decide)]; exact fun h => hp h.2
      rw [if_neg hp, if_neg hr]
      by_cases ha : substr line 0 4 = L "args"
      · have hr2 : specRecognised (L "args") line = true :=
          (specRecognised_iff _ _ (by decide)).2 ⟨hs, ha⟩
        rw [if_pos ha, if_pos hr2, lineValue_of_recognised _ _ (by decide) hr2]
      · have hr2 : ¬ specRecognised (L "args") line = true := by
          rw [specRecognised_iff _ _ (by decide)]; exact fun h => ha h.2
        rw [if_neg ha, if_neg hr2]

theorem specRecognised_wcsview (key line : WString) (h : specRecognised key line = false) :
    specRecognised key (wcsview line) = false := by
  cases hr : specRecognised key (wcsview line) with
  | false => rfl
  | true =>
    unfold specRecognised at hr h
    rw [ List.isPrefixOf_iff_prefix] at hr
    have hp : (key ++ L " = ") <+: line :=
      hr.trans (List.takeWhile_prefix _)
    rw [← List.isPrefixOf_iff_prefix] at hp
    rw [hp] at h
    exact absurd h (by simp)

theorem specLastValue_cons (key x : WString) (xs : List WString) :
    specLastValue key (x :: xs) =
      (specLastValue key xs).orElse
        (fun _ => if specRecognised key x = true then some (specValue x) else none) := by
  unfold specLastValue
  by_cases hx : specRecognised key x = true
  · rw [List.filter_cons_of_pos hx, if_pos hx]
    cases hf : xs.filter (specRecognised key) with
    | nil => rfl
    | cons y ys =>
      rw [List.getLast?_cons_cons]
      cases hl : (y :: ys).getLast? with
      | none => simp at hl
      | some z => rfl
  · rw [List.filter_cons_of_neg hx, if_neg hx]
    cases ((xs.filter (specRecognised key)).getLast?) <;> rfl

theorem foldl_lineStep (lines : List WString) (st : Option WString × Option WString) :
    lines.foldl lineStep st =
      ((specLastValue (L "path") lines).orElse (fun _ => st.1),
       (specLastValue (L "args") lines).orElse (fun _ => st.2)) := by
  induction lines generalizing st with
  | nil => cases st; rfl
  | cons x xs ih =>
    rw [List.foldl_cons, ih, specLastValue_cons, specLastValue_cons, lineStep_spec]
    by_cases hp : specRecognised (L "path") x = true
    · have ha := specRecognised_exclusive x hp
      rw [if_pos hp, if_pos hp, ha]
      cases specLastValue (L "path") xs <;> cases specLastValue (L "args") xs <;> rfl
    · rw [if_neg hp, if_neg hp]
      by_cases ha : specRecognised (L "args") x = true
      · rw [if_pos ha, if_pos ha]
        cases specLastValue (L "path") xs <;> cases specLastValue (L "args") xs <;> rfl
      · rw [if_neg ha, if_neg ha]
        cases specLastValue (L "path") xs <;> cases specLastValue (L "args") xs <;> rfl

theorem readShim_lastValue (s : List Nat) :
    readShim (s.length + 1) s (none, none) =
      some (specLastValue (L "path") (linesOf s), specLastValue (L "args") (linesOf s)) := by
  rw [readShim_linesOf, foldl_lineStep]
  cases specLastValue (L "path") (linesOf s) <;> cases specLastValue (L "args") (linesOf s) <;> rfl

/-! ## The sidecar file name -/

theorem filenameInit_length (env : Env) : (filenameInit env).length = MAX_PATH + 2 := by
  simp [filenameInit]

theorem getModuleFileName_short (env : Env) (p : WString) (hp : env.modulePath = some p)
    (hn : p.length < MAX_PATH) :
    GetModuleFileNameW env (filenameInit env) MAX_PATH =
      (p ++ [0] ++ (filenameInit env).drop (p.length + 1), p.length) := by
  unfold GetModuleFileNameW
  rw [hp]
  simp only []
  rw [if_pos hn]

theorem getModuleFileName_long (env : Env) (p : WString) (hp : env.modulePath = some p)
    (hn : MAX_PATH ≤ p.length) :
    (GetModuleFileNameW env (filenameInit env) MAX_PATH).2 = MAX_PATH := by
  unfold GetModuleFileNameW
  rw [hp]
  simp only []
  rw [if_neg (by omega)]

theorem shimFileName_eq (env : Env) (p : WString) (h3 : 3 ≤ p.length)
    (hn : p.length < MAX_PATH) :
    shimFileName (p ++ [0] ++ (filenameInit env).drop (p.length + 1)) p.length =
      some (p.take (p.length - 3) ++ L "shim"
        ++ 0 :: (filenameInit env).drop (p.length + 2)) := by
  have hB := filenameInit_length env
  unfold MAX_PATH at hB hn
  have hsplit : p = p.take (p.length - 3) ++ p.drop (p.length - 3) :=
    (List.take_append_drop _ _).symm
  have hpre : (p.take (p.length - 3)).length = p.length - 3 := by
    rw [List.length_take]; omega
  have hmid : (p.drop (p.length - 3) ++ [0]).length = 4 := by
    rw [List.length_append, List.length_drop, List.length_singleton]; omega
  have e1 : p ++ [0] ++ (filenameInit env).drop (p.length + 1)
      = p.take (p.length - 3) ++ (p.drop (p.length - 3) ++ [0])
          ++ (filenameInit env).drop (p.length + 1) := by
    rw [← List.append_assoc, ← hsplit]
  have w := wmemcpy_at (p.take (p.length - 3)) (p.drop (p.length - 3) ++ [0])
    ((filenameInit env).drop (p.length + 1)) (L "shim") [0] ((p.length : Int) - 3)
    (by rw [hpre]; omega) (by rw [hmid]; decide)
  rw [hmid] at w
  unfold shimFileName
  rw [e1, w]
  simp only []
  obtain ⟨x, hd⟩ : ∃ x, (filenameInit env).drop (p.length + 1)
      = x :: (filenameInit env).drop (p.length + 2) :=
    ⟨_, List.drop_eq_getElem_cons (by omega)⟩
  rw [hd]
  exact store_at _ _ _ 0 _ (by rw [List.length_append, hpre, L_shim]; simp; omega)

theorem shimName_nonull (p : WString) (h0 : 0 ∉ p) :
    0 ∉ p.take (p.length - 3) ++ L "shim" := by
  intro h
  rcases List.mem_append.mp h with h | h
  · exact h0 (List.mem_of_mem_take h)
  · exact absurd h (by decide)

theorem GetShimInfo_too_long (env : Env) (p : WString) (hp : env.modulePath = some p)
    (hn : MAX_PATH ≤ p.length) :
    GetShimInfo env =
      ([.stderr (L "The filename of the program is too long to handle.\n")],
        some (none, none)) := by
  unfold GetShimInfo
  simp only []
  rw [if_pos (by rw [getModuleFileName_long env p hp hn])]

theorem GetShimInfo_open (env : Env) (p : WString) (hp : env.modulePath = some p)
    (h0 : 0 ∉ p) (h3 : 3 ≤ p.length) (hn : p.length < MAX_PATH) :
    GetShimInfo env =
      match env.openFile (p.take (p.length - 3) ++ L "shim") with
      | none =>
        ([.wfopen (p.take (p.length - 3) ++ L "shim"),
          .stderr (L "Cannot open shim file for read.\n")], some (none, none))
      | some stream =>
        ([.wfopen (p.take (p.length - 3) ++ L "shim")],
          readShim (stream.length + 1) stream (none, none)) := by
  unfold GetShimInfo
  simp only []
  rw [getModuleFileName_short env p hp hn]
  simp only []
  rw [if_neg (by omega), shimFileName_eq env p h3 hn]
  simp only []
  rw [wcsview_append_zero _ _ (shimName_nonull p h0)]

theorem GetShimInfo_sidecar (env : Env) (stream : List Nat) (h : SidecarStream env stream) :
    ∃ name, GetShimInfo env =
      ([.wfopen name],
        some (specLastValue (L "path") (linesOf stream),
          specLastValue (L "args") (linesOf stream))) := by
  obtain ⟨p, hp, h0, h3, hn, ho⟩ := h
  refine ⟨p.take (p.length - 3) ++ L "shim", ?_⟩
  rw [GetShimInfo_open env p hp h0 h3 hn, ho]
  simp only []
  rw [readShim_lastValue]

/-! ## Values never contain a terminator -/

theorem shimLines_nonull (fuel : Nat) (s : List Nat) : ∀ l ∈ shimLines fuel s, 0 ∉ l := by
  induction fuel generalizing s with
  | zero => intro l h; simp [shimLines] at h
  | succ n ih =>
    cases s with
    | nil => intro l h; simp [shimLines, fgetws] at h
    | cons c s =>
      intro l h
      rw [shimLines_step] at h
      rcases List.mem_cons.mp h with h | h
      · rw [h]; exact wcsview_not_mem _
      · exact ih _ l h

theorem specValue_subset (line : WString) (x : Nat) (h : x ∈ specValue line) : x ∈ line := by
  unfold specValue at h
  split at h
  · exact List.mem_of_mem_drop (List.mem_of_mem_dropLast h)
  · exact List.mem_of_mem_drop h

theorem specLastValue_some (key : WString) (lines : List WString) (v : WString)
    (h : specLastValue key lines = some v) :
    ∃ l ∈ lines, specRecognised key l = true ∧ v = specValue l := by
  unfold specLastValue at h
  cases hl : (lines.filter (specRecognised key)).getLast? with
  | none => rw [hl] at h; simp at h
  | some l =>
    rw [hl] at h
    have hm := List.mem_of_getLast?_eq_some hl
    rw [List.mem_filter] at hm
    simp at h
    exact ⟨l, hm.1, hm.2, h.symm⟩

theorem specLastValue_nonull (key : WString) (s : List Nat) (v : WString)
    (h : specLastValue key (linesOf s) = some v) : 0 ∉ v := by
  obtain ⟨l, hl, _, rfl⟩ := specLastValue_some key _ v h
  exact fun hv => shimLines_nonull _ _ l hl (specValue_subset l 0 hv)

theorem GetShimInfo_result (env : Env) (t0 : List Effect) (P : WString) (a : Option WString)
    (h : GetShimInfo env = (t0, some (some P, a))) :
    ∃ stream, specLastValue (L "path") (linesOf stream) = some P ∧
      specLastValue (L "args") (linesOf stream) = a ∧
      ∀ e ∈ t0, Effect.isLaunchStep e = false := by
  unfold GetShimInfo at h
  simp only [] at h
  split at h
  · simp at h
  · split at h
    · simp at h
    · split at h
      · simp at h
      · rename_i stream _
        rw [readShim_lastValue] at h
        simp only [Prod.mk.injEq, Option.some.injEq] at h
        refine ⟨stream, h.2.1, h.2.2, ?_⟩
        rw [← h.1]
        intro e he
        simp at he
        rw [he]; rfl

theorem GetShimInfo_nonull (env : Env) (t0 : List Effect) (P : WString) (a : Option WString)
    (h : GetShimInfo env = (t0, some (some P, a))) : 0 ∉ P ∧ 0 ∉ a.getD [] := by
  obtain ⟨stream, hp, ha, _⟩ := GetShimInfo_result env t0 P a h
  refine ⟨specLastValue_nonull _ _ _ hp, ?_⟩
  cases a with
  | none => simp
  | some A => exact specLastValue_nonull _ _ _ ha

theorem forwardedArgs_nonull (cmd argv0 F : WString) (h : forwardedArgs cmd argv0 = some F) :
    0 ∉ F := by
  unfold forwardedArgs at h
  split at h
  · simp at h; rw [← h]; exact wcsview_not_mem _
  · simp at h

/-! ## `MakeProcess` and `wmain` case by case -/

theorem MakeProcess_ok (env : Env) (path args : WString) (hp ht : Nat)
    (h : env.createProcess = .ok hp ht) :
    MakeProcess env path args =
      ([.CreateProcessW (wcsview (path ++ 32 :: args ++ [0])), .ResumeThread ht]
        ++ installCtrlHandler env, some (hp, ht)) := by
  unfold MakeProcess
  rw [makeCmd_eq, h]

theorem MakeProcess_elevated (env : Env) (path args : WString) (hp : Nat)
    (h : env.createProcess = .fail ERROR_ELEVATION_REQUIRED)
    (hs : env.shellExecute = .ok hp) :
    MakeProcess env path args =
      ([.CreateProcessW (wcsview (path ++ 32 :: args ++ [0])),
        .ShellExecuteExW (wcsview (path ++ [0])) (wcsview (args ++ [0]))]
        ++ installCtrlHandler env, some (hp, 0)) := by
  unfold MakeProcess
  rw [makeCmd_eq, h]
  simp only []
  rw [hs]
  rfl

theorem MakeProcess_fail (env : Env) (path args : WString) (err : Nat)
    (h : env.createProcess = .fail err) (he : err ≠ ERROR_ELEVATION_REQUIRED) :
    MakeProcess env path args =
      ([.CreateProcessW (wcsview (path ++ 32 :: args ++ [0])),
        .stderr (createFailureText env.wctomb (wcsview (path ++ 32 :: args ++ [0])))],
        some (0, 0)) := by
  unfold MakeProcess
  rw [makeCmd_eq, h]
  simp only []
  rw [if_neg he]

/-- The effects of `wmain` between the sidecar check and `MakeProcess` (lines 203-220). -/
theorem wmain_launch (env : Env) (t0 : List Effect) (P F : WString) (a : Option WString)
    (hinfo : GetShimInfo env = (t0, some (some P, a)))
    (hfwd : forwardedArgs env.commandLine env.argv0 = some F) :
    wmain env =
      match MakeProcess env P (a.getD [] ++ F) with
      | (t2, none) =>
        (t0 ++ [.SHGetFileInfoW (wcsview (P ++ [0]))]
          ++ (if (HIWORD env.exeType != 0) = true then [Effect.FreeConsole] else [])
          ++ [.CreateJobObject, .SetInformationJobObject] ++ t2, none)
      | (t2, some (processHandle, _)) =>
        if processHandle ≠ 0 ∧ (HIWORD env.exeType != 0) = false then
          (t0 ++ [.SHGetFileInfoW (wcsview (P ++ [0]))]
            ++ (if (HIWORD env.exeType != 0) = true then [Effect.FreeConsole] else [])
            ++ [.CreateJobObject, .SetInformationJobObject] ++ t2
            ++ [.AssignProcessToJobObject processHandle,
              .WaitForSingleObject processHandle, .GetExitCodeProcess processHandle],
            some (match env.exitCode with
                  | some c => c % 2 ^ 32
                  | none => 0))
        else
          (t0 ++ [.SHGetFileInfoW (wcsview (P ++ [0]))]
            ++ (if (HIWORD env.exeType != 0) = true then [Effect.FreeConsole] else [])
            ++ [.CreateJobObject, .SetInformationJobObject] ++ t2,
            some (if processHandle ≠ 0 then 0 else 1)) := by
  unfold wmain
  rw [hinfo]
  simp only []
  rw [hfwd]

theorem installCtrlHandler_noWait (env : Env) :
    ∀ e ∈ installCtrlHandler env, Effect.isWaitStep e = false := by
  unfold installCtrlHandler
  intro e he
  split at he
  · simp at he; rw [he]; rfl
  · simp at he; rcases he with he | he <;> rw [he] <;> rfl

theorem launchStep_noWait (e : Effect) (h : Effect.isLaunchStep e = false) :
    Effect.isWaitStep e = false := by
  cases e <;> simp [Effect.isLaunchStep] at h <;> rfl

theorem specLastValue_none (key : WString) (lines : List WString)
    (h : ∀ l ∈ lines, specRecognised key l = false) : specLastValue key lines = none := by
  unfold specLastValue
  have : lines.filter (specRecognised key) = [] := by
    rw [List.filter_eq_nil_iff]
    intro l hl
    rw [h l hl]; simp
  rw [this]; rfl

theorem windowed_flag (x : Nat) (h : HIWORD x ≠ 0) : (HIWORD x != 0) = true := by
  simpa using h

theorem console_flag (x : Nat) (h : HIWORD x = 0) : (HIWORD x != 0) = false := by
  simp [h]

theorem noWait_append {l1 l2 : List Effect}
    (h1 : ∀ e ∈ l1, Effect.isWaitStep e = false)
    (h2 : ∀ e ∈ l2, Effect.isWaitStep e = false) :
    ∀ e ∈ l1 ++ l2, Effect.isWaitStep e = false := by
  intro e he
  rcases List.mem_append.mp he with h | h
  · exact h1 e h
  · exact h2 e h

/-! ## C2: relaying the exit code after direct creation -/

/-- C2, as amended. When the sidecar yields a target, the forwarded arguments are
well defined, `CreateProcessW` succeeds with process handle `hProcess` and the child's
exit code is the `DWORD` `c`: for a console target (`HIWORD` of the executable type
is 0) the launcher waits on the child and its exit status is `c`; for a windowed target
it does not wait and its exit status is 0. -/
theorem exit_code_relay (env : Env) (t0 : List Effect) (P F : WString) (a : Option WString)
    (hProcess hThread c : Nat)
    (hinfo : GetShimInfo env = (t0, some (some P, a)))
    (hfwd : forwardedArgs env.commandLine env.argv0 = some F)
    (hcp : env.createProcess = .ok hProcess hThread) (hh : hProcess ≠ 0)
    (hc : env.exitCode = some c) (hc32 : c < 2 ^ 32) :
    (HIWORD env.exeType = 0 →
      (wmain env).2 = some c ∧
      Effect.WaitForSingleObject hProcess ∈ (wmain env).1 ∧
      Effect.GetExitCodeProcess hProcess ∈ (wmain env).1) ∧
    (HIWORD env.exeType ≠ 0 →
      (wmain env).2 = some 0 ∧ ∀ e ∈ (wmain env).1, Effect.isWaitStep e = false) := by
  obtain ⟨_, _, _, ht0⟩ := GetShimInfo_result env t0 P a hinfo
  rw [wmain_launch env t0 P F a hinfo hfwd, MakeProcess_ok env _ _ _ _ hcp]
  simp only []
  constructor
  · intro hw
    rw [if_pos ⟨hh, console_flag _ hw⟩, hc]
    refine ⟨?_, ?_, ?_⟩
    · simp only []
      rw [Nat.mod_eq_of_lt hc32]
    · simp
    · simp
  · intro hw
    have hnot : ¬ (hProcess ≠ 0 ∧ (HIWORD env.exeType != 0) = false) := by
      rw [windowed_flag _ hw]; simp
    rw [if_neg hnot, if_pos hh, windowed_flag _ hw]
    refine ⟨rfl, ?_⟩
    exact noWait_append (noWait_append (noWait_append (noWait_append
      (fun e he => launchStep_noWait _ (ht0 e he)) (by simp [Effect.isWaitStep]))
      (by simp [Effect.isWaitStep])) (by simp [Effect.isWaitStep]))
      (noWait_append (by simp [Effect.isWaitStep]) (installCtrlHandler_noWait env))

/-- C2, witness: the scenario of the specification with a console target whose exit
code is 42. -/
theorem exit_code_relay_witness :
    (wmain (testEnv scenarioFile (L "shim.exe --verbose") EXE_CONSOLE
      (.ok 100 104) (.fail 5) (some 42))).2 = some 42 :=
  ((exit_code_relay (testEnv scenarioFile (L "shim.exe --verbose") EXE_CONSOLE
      (.ok 100 104) (.fail 5) (some 42))
    [.wfopen (L "C:\\s\\shim.shim")] (L "C:\\tools\\real.exe") (L " --verbose")
    (some (L "--mode=batch")) 100 104 42
    (by decide) (by decide) rfl (by decide) rfl (by decide)).1 (by decide)).1

/-- C2, counterexample: direct creation succeeds, the child's exit code is 7, the
target is a windowed application; the launcher's exit status is 0, not 7. -/
theorem exit_code_relay_counterexample :
    (testEnv scenarioFile (L "shim.exe --verbose") EXE_WINDOWS
      (.ok 100 104) (.fail 5) (some 7)).createProcess = .ok 100 104 ∧
    (testEnv scenarioFile (L "shim.exe --verbose") EXE_WINDOWS
      (.ok 100 104) (.fail 5) (some 7)).exitCode = some 7 ∧
    (wmain (testEnv scenarioFile (L "shim.exe --verbose") EXE_WINDOWS
      (.ok 100 104) (.fail 5) (some 7))).2 = some 0 ∧
    (wmain (testEnv scenarioFile (L "shim.exe --verbose") EXE_WINDOWS
      (.ok 100 104) (.fail 5) (some 7))).2 ≠ some 7 := by
  decide

/-! ## C3: the elevation fallback -/

/-- C3, as amended. When the sidecar yields a target, the forwarded arguments are well
defined, `CreateProcessW` fails with `ERROR_ELEVATION_REQUIRED` and `ShellExecuteExW`
succeeds with process handle `hProcess`: if the handle is not null and the target is
windowed, the launcher returns 0 without any wait step; if the handle is not null and
the target is a console application, the launcher waits on the elevated child and
returns the exit code `GetExitCodeProcess` stores (0 if that call fails); if the handle
is null the launcher returns 1 without any wait step. -/
theorem elevation_fallback (env : Env) (t0 : List Effect) (P F : WString)
    (a : Option WString) (hProcess : Nat)
    (hinfo : GetShimInfo env = (t0, some (some P, a)))
    (hfwd : forwardedArgs env.commandLine env.argv0 = some F)
    (hcp : env.createProcess = .fail ERROR_ELEVATION_REQUIRED)
    (hse : env.shellExecute = .ok hProcess) :
    (hProcess ≠ 0 → HIWORD env.exeType ≠ 0 →
      (wmain env).2 = some 0 ∧ ∀ e ∈ (wmain env).1, Effect.isWaitStep e = false) ∧
    (hProcess ≠ 0 → HIWORD env.exeType = 0 →
      (wmain env).2 = some (match env.exitCode with
                            | some c => c % 2 ^ 32
                            | none => 0) ∧
      Effect.WaitForSingleObject hProcess ∈ (wmain env).1 ∧
      Effect.GetExitCodeProcess hProcess ∈ (wmain env).1) ∧
    (hProcess = 0 →
      (wmain env).2 = some 1 ∧ ∀ e ∈ (wmain env).1, Effect.isWaitStep e = false) := by
  obtain ⟨_, _, _, ht0⟩ := GetShimInfo_result env t0 P a hinfo
  have hpre : ∀ e ∈ t0 ++ [Effect.SHGetFileInfoW (wcsview (P ++ [0]))]
      ++ (if (HIWORD env.exeType != 0) = true then [Effect.FreeConsole] else [])
      ++ [Effect.CreateJobObject, Effect.SetInformationJobObject]
      ++ ([Effect.CreateProcessW (wcsview (P ++ 32 :: (a.getD [] ++ F) ++ [0])),
          Effect.ShellExecuteExW (wcsview (P ++ [0])) (wcsview (a.getD [] ++ F ++ [0]))]
          ++ installCtrlHandler env), Effect.isWaitStep e = false :=
    noWait_append (noWait_append (noWait_append (noWait_append
      (fun e he => launchStep_noWait _ (ht0 e he)) (by simp [Effect.isWaitStep]))
      (by split <;> simp [Effect.isWaitStep])) (by simp [Effect.isWaitStep]))
      (noWait_append (by simp [Effect.isWaitStep]) (installCtrlHandler_noWait env))
  rw [wmain_launch env t0 P F a hinfo hfwd, MakeProcess_elevated env _ _ _ hcp hse]
  simp only []
  refine ⟨?_, ?_, ?_⟩
  · intro hh hw
    have hnot : ¬ (hProcess ≠ 0 ∧ (HIWORD env.exeType != 0) = false) := by
      rw [windowed_flag _ hw]; simp
    rw [if_neg hnot, if_pos hh]
    exact ⟨rfl, hpre⟩
  · intro hh hw
    rw [if_pos ⟨hh, console_flag _ hw⟩]
    refine ⟨rfl, ?_, ?_⟩
    · simp
    · simp
  · intro hh
    subst hh
    have hnot : ¬ ((0 : Nat) ≠ 0 ∧ (HIWORD env.exeType != 0) = false) := by simp
    rw [if_neg hnot]
    exact ⟨by simp, hpre⟩

/-- C3, witness: a windowed target started through the fallback; the launcher returns
0 although the child's exit code is 5. -/
theorem elevation_fallback_witness :
    (wmain (testEnv scenarioFile (L "shim.exe --verbose") EXE_WINDOWS
      (.fail 740) (.ok 200) (some 5))).2 = some 0 :=
  ((elevation_fallback (testEnv scenarioFile (L "shim.exe --verbose") EXE_WINDOWS
      (.fail 740) (.ok 200) (some 5))
    [.wfopen (L "C:\\s\\shim.shim")] (L "C:\\tools\\real.exe") (L " --verbose")
    (some (L "--mode=batch")) 200
    (by decide) (by decide) rfl rfl).1 (by decide) (by decide)).1

/-- C3, counterexample: `CreateProcessW` fails with error 740, `ShellExecuteExW`
succeeds with process handle 200, the target is a console application and the elevated
child's exit code is 5; the launcher waits on handle 200, queries its exit code and
returns 5, not 0. -/
theorem elevation_fallback_counterexample :
    (testEnv scenarioFile (L "shim.exe --verbose") EXE_CONSOLE
      (.fail 740) (.ok 200) (some 5)).createProcess = .fail ERROR_ELEVATION_REQUIRED ∧
    (testEnv scenarioFile (L "shim.exe --verbose") EXE_CONSOLE
      (.fail 740) (.ok 200) (some 5)).shellExecute = .ok 200 ∧
    Effect.WaitForSingleObject 200 ∈ (wmain (testEnv scenarioFile (L "shim.exe --verbose")
      EXE_CONSOLE (.fail 740) (.ok 200) (some 5))).1 ∧
    Effect.GetExitCodeProcess 200 ∈ (wmain (testEnv scenarioFile (L "shim.exe --verbose")
      EXE_CONSOLE (.fail 740) (.ok 200) (some 5))).1 ∧
    (wmain (testEnv scenarioFile (L "shim.exe --verbose") EXE_CONSOLE
      (.fail 740) (.ok 200) (some 5))).2 = some 5 ∧
    (wmain (testEnv scenarioFile (L "shim.exe --verbose") EXE_CONSOLE
      (.fail 740) (.ok 200) (some 5))).2 ≠ some 0 := by
  decide

/-! ## C6: any other creation failure -/

theorem noLaunch_not_shell (l : List Effect) (h : ∀ e ∈ l, Effect.isLaunchStep e = false)
    (f p : WString) : Effect.ShellExecuteExW f p ∉ l :=
  fun hm => absurd (h _ hm) (by simp [Effect.isLaunchStep])

theorem noLaunch_not_ctrl (l : List Effect) (h : ∀ e ∈ l, Effect.isLaunchStep e = false) :
    Effect.SetConsoleCtrlHandler ∉ l :=
  fun hm => absurd (h _ hm) (by simp [Effect.isLaunchStep])

theorem narrowLs_identity (wctomb : Nat → Option (List Nat)) (s : WString)
    (h : ∀ c ∈ s, wctomb c = some [c]) : narrowLs wctomb s = (s, true) := by
  induction s with
  | nil => rfl
  | cons c s ih =>
    have hc := h c (by simp)
    have hs := ih (fun d hd => h d (by simp [hd]))
    unfold narrowLs
    rw [hc]
    simp only []
    rw [hs]
    rfl

theorem createFailureText_identity (wctomb : Nat → Option (List Nat)) (s : WString)
    (h : ∀ c ∈ s, wctomb c = some [c]) :
    createFailureText wctomb s = L "Could not create process with command '" ++ s ++ L "'.\n" := by
  unfold createFailureText
  rw [narrowLs_identity wctomb s h]
  rfl

/-- The part of C6 that the code satisfies. When the sidecar yields target `P` and prefix
`a`, the forwarded arguments are `F`, and `CreateProcessW` fails with an error other than
`ERROR_ELEVATION_REQUIRED`: the launcher returns 1, never calls `ShellExecuteExW`, never
installs the control handler, and writes to standard error the bytes of line 164 for the
composed command `P ++ " " ++ A ++ F`. When every character of the command is converted
to itself, that diagnostic is `Could not create process with command '<P A F>'.` with
the whole command in it. -/
theorem create_failure_is_fatal (env : Env) (t0 : List Effect) (P F : WString)
    (a : Option WString) (err : Nat)
    (hinfo : GetShimInfo env = (t0, some (some P, a)))
    (hfwd : forwardedArgs env.commandLine env.argv0 = some F)
    (hcp : env.createProcess = .fail err) (herr : err ≠ ERROR_ELEVATION_REQUIRED) :
    (wmain env).2 = some 1 ∧
    (∀ f p, Effect.ShellExecuteExW f p ∉ (wmain env).1) ∧
    Effect.SetConsoleCtrlHandler ∉ (wmain env).1 ∧
    Effect.stderr (createFailureText env.wctomb (P ++ L " " ++ a.getD [] ++ F))
      ∈ (wmain env).1 ∧
    ((∀ c ∈ P ++ L " " ++ a.getD [] ++ F, env.wctomb c = some [c]) →
      Effect.stderr (L "Could not create process with command '"
        ++ (P ++ L " " ++ a.getD [] ++ F) ++ L "'.\n") ∈ (wmain env).1) := by
  obtain ⟨_, _, _, ht0⟩ := GetShimInfo_result env t0 P a hinfo
  obtain ⟨hP0, hA0⟩ := GetShimInfo_nonull env t0 P a hinfo
  have hF0 := forwardedArgs_nonull _ _ _ hfwd
  have hargs : 0 ∉ a.getD [] ++ F := by
    intro h
    rcases List.mem_append.mp h with h | h
    · exact hA0 h
    · exact hF0 h
  have htext := cmd_text P (a.getD [] ++ F) hP0 hargs
  rw [← List.append_assoc] at htext
  rw [wmain_launch env t0 P F a hinfo hfwd, MakeProcess_fail env _ _ err hcp herr, htext]
  simp only []
  rw [if_neg (by simp)]
  have hmem : Effect.stderr (createFailureText env.wctomb (P ++ L " " ++ a.getD [] ++ F)) ∈
      t0 ++ [Effect.SHGetFileInfoW (wcsview (P ++ [0]))]
      ++ (if (HIWORD env.exeType != 0) = true then [Effect.FreeConsole] else [])
      ++ [Effect.CreateJobObject, Effect.SetInformationJobObject]
      ++ [Effect.CreateProcessW (P ++ L " " ++ a.getD [] ++ F),
          Effect.stderr (createFailureText env.wctomb (P ++ L " " ++ a.getD [] ++ F))] := by
    simp
  refine ⟨by simp, ?_, ?_, hmem, ?_⟩
  · intro f p hm
    simp only [List.mem_append, List.mem_cons, List.mem_singleton, List.not_mem_nil,
      or_false] at hm
    rcases hm with (((hm | hm) | hm) | hm) | hm
    · exact noLaunch_not_shell t0 ht0 f p hm
    · cases hm
    · split at hm <;> simp at hm
    · rcases hm with hm | hm <;> cases hm
    · rcases hm with hm | hm <;> cases hm
  · intro hm
    simp only [List.mem_append, List.mem_cons, List.mem_singleton, List.not_mem_nil,
      or_false] at hm
    rcases hm with (((hm | hm) | hm) | hm) | hm
    · exact noLaunch_not_ctrl t0 ht0 hm
    · cases hm
    · split at hm <;> simp at hm
    · rcases hm with hm | hm <;> cases hm
    · rcases hm with hm | hm <;> cases hm
  · intro hrep
    rw [← createFailureText_identity env.wctomb _ hrep]
    exact hmem

/-- The scenario of the specification when `CreateProcessW` fails with
`ERROR_FILE_NOT_FOUND` (2): every character of the command is ASCII and the diagnostic
holds the whole command. -/
theorem create_failure_is_fatal_witness :
    (wmain (testEnv scenarioFile (L "shim.exe --verbose") EXE_CONSOLE
      (.fail 2) (.ok 200) (some 5))).2 = some 1 ∧
    Effect.stderr (L "Could not create process with command '"
      ++ (L "C:\\tools\\real.exe" ++ L " " ++ (some (L "--mode=batch")).getD []
        ++ L " --verbose") ++ L "'.\n") ∈
      (wmain (testEnv scenarioFile (L "shim.exe --verbose") EXE_CONSOLE
        (.fail 2) (.ok 200) (some 5))).1 :=
  have h := create_failure_is_fatal (testEnv scenarioFile (L "shim.exe --verbose")
      EXE_CONSOLE (.fail 2) (.ok 200) (some 5))
    [.wfopen (L "C:\\s\\shim.shim")] (L "C:\\tools\\real.exe") (L " --verbose")
    (some (L "--mode=batch")) 2 (by decide) (by decide) rfl (by decide)
  ⟨h.1, h.2.2.2.2 (by decide)⟩

/-- C6, the failing input evaluated. The sidecar names the target `C:\t\<U+4E2D>.exe`,
the launcher is invoked as `shim.exe -v`, `CreateProcessW` fails with
`ERROR_FILE_NOT_FOUND` (2) and the process runs in the "C" locale. The launcher returns 1
without an elevation attempt and without installing the control handler, but the
diagnostic it writes is `Could not create process with command 'C:\t\` and nothing
more: the output of `%ls` ends before the character that cannot be converted, so the
composed command (the target, a space, and the forwarded ` -v`) is not in it. -/
theorem create_failure_diagnostic_cut :
    wmain (testEnv wideNameFile (L "shim.exe -v") EXE_CONSOLE (.fail 2) (.ok 200) (some 5))
      = ([.wfopen (L "C:\\s\\shim.shim"),
          .SHGetFileInfoW (L "C:\\t\\" ++ [20013] ++ L ".exe"),
          .CreateJobObject, .SetInformationJobObject,
          .CreateProcessW (L "C:\\t\\" ++ [20013] ++ L ".exe" ++ L " " ++ L " -v"),
          .stderr (L "Could not create process with command 'C:\\t\\")], some 1) ∧
    ¬ (L "C:\\t\\" ++ [20013] ++ L ".exe" ++ L " " ++ L " -v")
        <:+: L "Could not create process with command 'C:\\t\\" := by
  refine ⟨by decide, ?_⟩
  intro h
  have hm : (20013 : Nat) ∈ L "Could not create process with command 'C:\\t\\" :=
    h.subset (by simp)
  exact absurd hm (by decide)

/-! ## C5: a sidecar without a `path` line -/

/-- The part of C5 that the code satisfies. When the sidecar opens and it contains no
line recognised as a `path` line,
`wmain` returns 1 and its whole effect trace is the opening of the sidecar followed by
the diagnostic `Could not read shim file.`: no `CreateProcessW`, no `ShellExecuteExW`,
no job object and no console detach. "No line recognised" is taken either way: none of
the lines the read loop sees is recognised (this covers the empty file), or every line
of the file fits one `fgetws` read and none of the file's lines is recognised. -/
theorem missing_path_is_fatal (env : Env) (stream : List Nat)
    (h : SidecarStream env stream)
    (hno : (∀ l ∈ linesOf stream, specRecognised (L "path") l = false) ∨
      ((∀ l ∈ fileLines stream, l.length < LINEBUF_LEN) ∧
        ∀ l ∈ fileLines stream, specRecognised (L "path") l = false)) :
    (wmain env).2 = some 1 ∧
    (∃ name, (wmain env).1 = [.wfopen name, .stderr (L "Could not read shim file.\n")]) ∧
    (∀ e ∈ (wmain env).1, Effect.isLaunchStep e = false) ∧
    (∀ c, Effect.CreateProcessW c ∉ (wmain env).1) ∧
    (∀ f p, Effect.ShellExecuteExW f p ∉ (wmain env).1) ∧
    Effect.CreateJobObject ∉ (wmain env).1 ∧
    Effect.FreeConsole ∉ (wmain env).1 := by
  have hno' : ∀ l ∈ linesOf stream, specRecognised (L "path") l = false := by
    rcases hno with hno | ⟨hfit, hno⟩
    · exact hno
    · rw [linesOf_fileLines stream hfit]
      intro l hl
      obtain ⟨m, hm, rfl⟩ := List.mem_map.mp hl
      exact specRecognised_wcsview _ _ (hno m hm)
  obtain ⟨name, hname⟩ := GetShimInfo_sidecar env stream h
  rw [specLastValue_none _ _ hno'] at hname
  have hw : wmain env = ([.wfopen name, .stderr (L "Could not read shim file.\n")], some 1) := by
    unfold wmain
    rw [hname]
    rfl
  rw [hw]
  refine ⟨rfl, ⟨name, rfl⟩, ?_, ?_, ?_, ?_, ?_⟩
  · intro e he
    simp at he
    rcases he with he | he <;> rw [he] <;> rfl
  · intro c hm; simp at hm
  · intro f p hm; simp at hm
  · intro hm; simp at hm
  · intro hm; simp at hm

/-- A sidecar with an `args` line and a comment but no `path` line: the launcher
returns 1. -/
theorem missing_path_is_fatal_witness :
    (wmain (testEnv (L "args = -x\n# no target\n") (L "shim.exe --verbose") EXE_CONSOLE
      (.ok 100 104) (.ok 200) (some 0))).2 = some 1 :=
  (missing_path_is_fatal (testEnv (L "args = -x\n# no target\n") (L "shim.exe --verbose")
      EXE_CONSOLE (.ok 100 104) (.ok 200) (some 0)) (L "args = -x\n# no target\n")
    ⟨L "C:\\s\\shim.exe", rfl, by decide, by decide, by decide, by decide⟩
    (Or.inr ⟨by decide, by decide⟩)).1

/-! ## C7: the last occurrence of a key wins -/

theorem specLastValue_last (key : WString) (pre post : List WString) (l : WString)
    (hl : specRecognised key l = true) (hpost : ∀ m ∈ post, specRecognised key m = false) :
    specLastValue key (pre ++ l :: post) = some (specValue l) := by
  unfold specLastValue
  have hp : post.filter (specRecognised key) = [] := by
    rw [List.filter_eq_nil_iff]
    intro m hm
    rw [hpost m hm]; simp
  rw [List.filter_append, List.filter_cons_of_pos hl, hp, List.getLast?_append]
  rfl

/-- The part of C7 that the code satisfies. When the sidecar opens, `GetShimInfo`
returns for `path` the value of the last
line recognised as a `path` line and for `args` the value of the last line recognised
as an `args` line, in the order in which the read loop sees the lines, and nothing when
there is no such line: each result is a function of the lines of its own key only, and
it is the value of one line, never a concatenation. The second part spells out "last":
a recognised line with no recognised line of the same key after it provides the value.
The third part: when every line of the file fits one `fgetws` read, the lines the read
loop sees are the lines of the file. -/
theorem last_occurrence_wins (env : Env) (stream : List Nat)
    (h : SidecarStream env stream) :
    (GetShimInfo env).2 =
      some (specLastValue (L "path") (linesOf stream),
        specLastValue (L "args") (linesOf stream)) ∧
    (∀ key pre l post, linesOf stream = pre ++ l :: post → specRecognised key l = true →
      (∀ m ∈ post, specRecognised key m = false) →
      specLastValue key (linesOf stream) = some (specValue l)) ∧
    ((∀ l ∈ fileLines stream, l.length < LINEBUF_LEN) →
      linesOf stream = (fileLines stream).map wcsview) := by
  obtain ⟨name, hname⟩ := GetShimInfo_sidecar env stream h
  refine ⟨by rw [hname], ?_, linesOf_fileLines stream⟩
  intro key pre l post hs hl hpost
  rw [hs]
  exact specLastValue_last key pre post l hl hpost

/-- Both keys are set twice and interleaved; the second value of each is returned. -/
theorem last_occurrence_wins_witness :
    (GetShimInfo (testEnv (L "path = a\nargs = 1\npath = b\nargs = 2\n")
      (L "shim.exe") EXE_CONSOLE (.ok 100 104) (.ok 200) (some 0))).2
      = some (some (L "b"), some (L "2")) :=
  (last_occurrence_wins (testEnv (L "path = a\nargs = 1\npath = b\nargs = 2\n")
      (L "shim.exe") EXE_CONSOLE (.ok 100 104) (.ok 200) (some 0))
    (L "path = a\nargs = 1\npath = b\nargs = 2\n")
    ⟨L "C:\\s\\shim.exe", rfl, by decide, by decide, by decide, by decide⟩).1

/-! ## C4: a well-formed two-line sidecar -/

theorem L_pathEq_length : (L "path = ").length = 7 := by decide

theorem L_argsEq_length : (L "args = ").length = 7 := by decide

theorem specValue_newline (k v : WString) (hk : k.length = 7) :
    specValue (k ++ v ++ [10]) = v := by
  unfold specValue
  have hd : (k ++ v ++ [10]).drop 7 = v ++ [10] := by
    rw [List.append_assoc, ← hk, List.drop_left]
  rw [hd, if_pos (by simp)]
  simp

theorem specValue_plain (k v : WString) (hk : k.length = 7) (hv : 10 ∉ v) :
    specValue (k ++ v) = v := by
  unfold specValue
  have hd : (k ++ v).drop 7 = v := by rw [← hk, List.drop_left]
  rw [hd, if_neg]
  intro h
  exact hv (List.mem_of_getLast?_eq_some h)

theorem specRecognised_path (v : WString) :
    specRecognised (L "path") (L "path = " ++ v) = true := by
  unfold specRecognised
  rw [ List.isPrefixOf_iff_prefix]
  exact ⟨v, rfl⟩

theorem specRecognised_args (v : WString) :
    specRecognised (L "args") (L "args = " ++ v) = true := by
  unfold specRecognised
  rw [ List.isPrefixOf_iff_prefix]
  exact ⟨v, rfl⟩

theorem not_path_of_args (line : WString) (h : specRecognised (L "args") line = true) :
    specRecognised (L "path") line = false := by
  cases hp : specRecognised (L "path") line with
  | false => rfl
  | true => rw [specRecognised_exclusive line hp] at h; exact absurd h (by simp)

theorem specLastValue_path_args (l1 l2 : WString) (h1 : specRecognised (L "path") l1 = true)
    (h2 : specRecognised (L "args") l2 = true) :
    specLastValue (L "path") [l1, l2] = some (specValue l1) ∧
    specLastValue (L "args") [l1, l2] = some (specValue l2) := by
  constructor
  · exact specLastValue_last (L "path") [] [l2] l1 h1
      (by intro m hm; simp at hm; rw [hm]; exact not_path_of_args l2 h2)
  · exact specLastValue_last (L "args") [l1] [] l2 h2 (by simp)

theorem nonull_line (k v w : WString) (hk : 0 ∉ k) (hv : 0 ∉ v) (hw : 0 ∉ w) :
    0 ∉ k ++ v ++ w := by
  intro h
  rcases List.mem_append.mp h with h | h
  · rcases List.mem_append.mp h with h | h
    · exact hk h
    · exact hv h
  · exact hw h

theorem nonl_line (k v : WString) (hk : 10 ∉ k) (hv : 10 ∉ v) : 10 ∉ k ++ v := by
  intro h
  rcases List.mem_append.mp h with h | h
  · exact hk h
  · exact hv h

/-- C4, as amended. For every `P` and `A` that contain neither a newline nor a null
character, with the line `path = P` and its newline fitting one `fgetws` read: when the
sidecar is `path = P`, newline, `args = A`, newline (both lines fitting), `GetShimInfo`
returns exactly `P` and `A`; when the final line `args = A` has no trailing newline (and
fits), it returns exactly `P` and `A` as well. -/
theorem well_formed_sidecar (env : Env) (P A : WString)
    (hP10 : 10 ∉ P) (hA10 : 10 ∉ A) (hP0 : 0 ∉ P) (hA0 : 0 ∉ A)
    (hPl : P.length + 8 < LINEBUF_LEN) :
    (A.length + 8 < LINEBUF_LEN →
      SidecarStream env (L "path = " ++ P ++ [10] ++ (L "args = " ++ A ++ [10])) →
      (GetShimInfo env).2 = some (some P, some A)) ∧
    (A.length + 7 < LINEBUF_LEN →
      SidecarStream env (L "path = " ++ P ++ [10] ++ (L "args = " ++ A)) →
      (GetShimInfo env).2 = some (some P, some A)) := by
  have hline1 : ∀ rest, linesOf (L "path = " ++ P ++ [10] ++ rest)
      = (L "path = " ++ P ++ [10]) :: linesOf rest := by
    intro rest
    have e : L "path = " ++ P ++ [10] ++ rest = (L "path = " ++ P) ++ 10 :: rest := by simp
    rw [e, linesOf_line _ _ (nonl_line _ _ (by decide) hP10)
      (by rw [List.length_append, L_pathEq_length]; omega),
      wcsview_of_not_mem _ (nonull_line _ _ _ (by decide) hP0 (by decide))]
  constructor
  · intro hAl hs
    obtain ⟨name, hname⟩ := GetShimInfo_sidecar env _ hs
    have e2 : linesOf (L "args = " ++ A ++ [10]) = [L "args = " ++ A ++ [10]] := by
      have := linesOf_line (L "args = " ++ A) [] (nonl_line _ _ (by decide) hA10)
        (by rw [List.length_append, L_argsEq_length]; omega)
      rw [this, wcsview_of_not_mem _ (nonull_line _ _ _ (by decide) hA0 (by decide))]
      rfl
    rw [hline1, e2] at hname
    have hv := specLastValue_path_args (L "path = " ++ P ++ [10]) (L "args = " ++ A ++ [10])
      (by rw [List.append_assoc]; exact specRecognised_path _)
      (by rw [List.append_assoc]; exact specRecognised_args _)
    rw [hv.1, hv.2, specValue_newline _ _ L_pathEq_length,
      specValue_newline _ _ L_argsEq_length] at hname
    rw [hname]
  · intro hAl hs
    obtain ⟨name, hname⟩ := GetShimInfo_sidecar env _ hs
    have e2 : linesOf (L "args = " ++ A) = [L "args = " ++ A] := by
      have hne : L "args = " ++ A ≠ [] := by
        intro h
        have := congrArg List.length h
        rw [List.length_append, L_argsEq_length] at this
        simp at this
      have h0 : 0 ∉ L "args = " ++ A := by
        have := nonull_line (L "args = ") A [] (by decide) hA0 (by simp)
        simpa using this
      rw [linesOf_last _ hne (nonl_line _ _ (by decide) hA10)
        (by rw [List.length_append, L_argsEq_length]; omega),
        wcsview_of_not_mem _ h0]
    rw [hline1, e2] at hname
    have hv := specLastValue_path_args (L "path = " ++ P ++ [10]) (L "args = " ++ A)
      (by rw [List.append_assoc]; exact specRecognised_path _) (specRecognised_args _)
    rw [hv.1, hv.2, specValue_newline _ _ L_pathEq_length,
      specValue_plain _ _ L_argsEq_length hA10] at hname
    rw [hname]

/-- C4, witness: the sidecar of the specification's scenario. -/
theorem well_formed_sidecar_witness :
    (GetShimInfo (testEnv scenarioFile (L "shim.exe --verbose") EXE_CONSOLE
      (.ok 100 104) (.fail 5) (some 42))).2
      = some (some (L "C:\\tools\\real.exe"), some (L "--mode=batch")) :=
  (well_formed_sidecar (testEnv scenarioFile (L "shim.exe --verbose") EXE_CONSOLE
      (.ok 100 104) (.fail 5) (some 42)) (L "C:\\tools\\real.exe") (L "--mode=batch")
    (by decide) (by decide) (by decide) (by decide) (by decide)).1 (by decide)
    ⟨L "C:\\s\\shim.exe", rfl, by decide, by decide, by decide, by decide⟩

/-- C4, counterexample: the sidecar is `path = a<NUL>b`, newline, `args = x`, newline.
The value `a<NUL>b` contains no newline and fits the line buffer, yet `GetShimInfo`
returns the target path `a`: the line is read as a C string and ends at the null. -/
theorem well_formed_sidecar_counterexample :
    10 ∉ ([97, 0, 98] : WString) ∧
    (GetShimInfo (testEnv (L "path = " ++ [97, 0, 98] ++ [10] ++ (L "args = " ++ L "x" ++ [10]))
      (L "shim.exe") EXE_CONSOLE (.ok 100 104) (.fail 5) (some 0))).2
      = some (some [97], some (L "x")) ∧
    (GetShimInfo (testEnv (L "path = " ++ [97, 0, 98] ++ [10] ++ (L "args = " ++ L "x" ++ [10]))
      (L "shim.exe") EXE_CONSOLE (.ok 100 104) (.fail 5) (some 0))).2
      ≠ some (some [97, 0, 98], some (L "x")) := by
  decide

/-! ## C8: the forwarded arguments -/

theorem drop_terminated (pre R : WString) (n : Nat) (hn : n = pre.length) (hR : 0 ∉ R) :
    wcsview ((pre ++ R ++ [0]).drop n) = R := by
  subst hn
  rw [List.append_assoc, List.drop_left]
  exact wcsview_append_zero R [] hR

/-- C8. For every invocation text `T` (a C string) and launcher name `N`: if the name
stands unquoted at the start of the text (`T = N ++ R`, and `T` does not open with a
double quote, as is the case whenever `N` is non-empty and does not begin with one), or
if it stands quoted (`T = '"' ++ N ++ '"' ++ R`), the text `wmain` appends to the
argument prefix is exactly `R`; the offset used is `len N` in the first case and
`len N + 2` in the second, and never exceeds the length of `T`. -/
theorem forwarded_arguments (T N R : WString) (h0 : 0 ∉ T)
    (h : (T = N ++ R ∧ T.head? ≠ some 34) ∨ T = 34 :: (N ++ 34 :: R)) :
    forwardedArgs T N = some R ∧
    argOffset T N ≤ T.length ∧
    argOffset T N = (if T.head? = some 34 then N.length + 2 else N.length) := by
  have hN0 : 0 ∉ N := by
    rcases h with ⟨h, _⟩ | h <;> subst h <;> intro hm <;> exact h0 (by simp [hm])
  have hR0 : 0 ∉ R := by
    rcases h with ⟨h, _⟩ | h <;> subst h <;> intro hm <;> exact h0 (by simp [hm])
  have hlen : wcslen (N ++ [0]) = N.length := by
    unfold wcslen
    rw [wcsview_append_zero N [] hN0]
  rcases h with ⟨h, hq⟩ | h
  · subst h
    have hhead' : (N ++ R ++ [0]).head? ≠ some 34 := by
      cases hT : N ++ R with
      | nil => simp
      | cons n T' => rw [hT] at hq; exact hq
    have hoff : argOffset (N ++ R) N = N.length := by
      unfold argOffset
      rw [if_neg hhead', hlen]
    unfold forwardedArgs
    rw [hoff, if_neg hq, if_pos (by simp),
      drop_terminated N R N.length rfl hR0]
    exact ⟨rfl, by simp, rfl⟩
  · subst h
    have hoff : argOffset (34 :: (N ++ 34 :: R)) N = N.length + 2 := by
      unfold argOffset
      rw [List.cons_append, List.head?_cons, if_pos rfl, hlen]
    have hd := drop_terminated (34 :: (N ++ [34])) R (N.length + 2) (by simp) hR0
    have e : 34 :: (N ++ [34]) ++ R ++ [0] = 34 :: (N ++ 34 :: R) ++ [0] := by simp
    rw [e] at hd
    unfold forwardedArgs
    rw [hoff, List.head?_cons, if_pos rfl, if_pos (by simp; omega), hd]
    exact ⟨rfl, by simp, rfl⟩

/-- C8, witness: `shim.exe --verbose` with the unquoted name `shim.exe` forwards
` --verbose`, at offset 8 of 18. -/
theorem forwarded_arguments_witness :
    forwardedArgs (L "shim.exe --verbose") (L "shim.exe") = some (L " --verbose") ∧
    argOffset (L "shim.exe --verbose") (L "shim.exe") ≤ (L "shim.exe --verbose").length :=
  have h := forwarded_arguments (L "shim.exe --verbose") (L "shim.exe") (L " --verbose")
    (by decide) (Or.inl (by decide))
  ⟨h.1, h.2.1⟩

/-! ## C9: the name of the sidecar -/

theorem dropWhile_until (l1 l2 : List Nat) (a : Nat) (h : a ∉ l1) :
    (l1 ++ a :: l2).dropWhile (fun c => c != a) = a :: l2 := by
  induction l1 with
  | nil => simp [List.dropWhile]
  | cons c s ih =>
    have hc : c ≠ a := fun e => h (by simp [e])
    have hs : a ∉ s := fun m => h (by simp [m])
    rw [List.cons_append, List.dropWhile_cons_of_pos (by simpa using hc), ih hs]

theorem specReplaceExtension_eq (stem ext new : WString) (h : 46 ∉ ext) :
    specReplaceExtension (stem ++ 46 :: ext) new = stem ++ [46] ++ new := by
  unfold specReplaceExtension
  have e : (stem ++ 46 :: ext).reverse = ext.reverse ++ 46 :: stem.reverse := by simp
  rw [e, dropWhile_until _ _ 46 (by simpa using h)]
  simp

theorem take_stem (stem ext : WString) (h : ext.length = 3) :
    (stem ++ 46 :: ext).take ((stem ++ 46 :: ext).length - 3) = stem ++ [46] := by
  have hl : (stem ++ 46 :: ext).length - 3 = (stem ++ [46]).length := by
    simp; omega
  have e : stem ++ 46 :: ext = (stem ++ [46]) ++ ext := by simp
  rw [hl, e, List.take_left]

/-- C9, as amended. Let `p` be the path of the running executable, a C string.
If `p` has fewer than `MAX_PATH` characters and ends in a dot followed by an extension of
exactly three characters, both writes of lines 66-67 stay inside the `MAX_PATH + 2`
element buffer, the buffer then holds the path with its extension replaced by `shim`,
terminated by a null at index `len p + 1`, and that name is the one passed to
`_wfopen_s`. If `p` has `MAX_PATH` characters or more, `GetShimInfo` only prints the
path-too-long diagnostic and returns no target path and no arguments. -/
theorem sidecar_name (env : Env) (p : WString) (hp : env.modulePath = some p)
    (h0 : 0 ∉ p) :
    (∀ stem ext, p = stem ++ 46 :: ext → ext.length = 3 → 46 ∉ ext →
      p.length < MAX_PATH →
      ∃ filename,
        shimFileName (GetModuleFileNameW env (filenameInit env) MAX_PATH).1
          (GetModuleFileNameW env (filenameInit env) MAX_PATH).2 = some filename ∧
        filename.length = MAX_PATH + 2 ∧
        wcsview filename = specReplaceExtension p (L "shim") ∧
        wcslen filename = p.length + 1 ∧
        filename[p.length + 1]? = some 0 ∧
        (GetShimInfo env).1.head? = some (.wfopen (specReplaceExtension p (L "shim")))) ∧
    (MAX_PATH ≤ p.length →
      GetShimInfo env =
        ([.stderr (L "The filename of the program is too long to handle.\n")],
          some (none, none))) := by
  refine ⟨?_, GetShimInfo_too_long env p hp⟩
  intro stem ext hpe hext hdot hn
  have h3 : 3 ≤ p.length := by rw [hpe]; simp; omega
  have hname : p.take (p.length - 3) ++ L "shim" = specReplaceExtension p (L "shim") := by
    rw [hpe, take_stem stem ext hext, specReplaceExtension_eq stem ext _ hdot]
  have hB := filenameInit_length env
  have hplen : (p.take (p.length - 3)).length = p.length - 3 := by
    rw [List.length_take]; omega
  refine ⟨p.take (p.length - 3) ++ L "shim" ++ 0 :: (filenameInit env).drop (p.length + 2),
    ?_, ?_, ?_, ?_, ?_, ?_⟩
  · rw [getModuleFileName_short env p hp hn]
    exact shimFileName_eq env p h3 hn
  · simp only [List.length_append, List.length_cons, List.length_drop, List.length_nil,
      hplen, hB, L_shim]
    unfold MAX_PATH at hn ⊢
    omega
  · rw [wcsview_append_zero _ _ (shimName_nonull p h0), hname]
  · unfold wcslen
    rw [wcsview_append_zero _ _ (shimName_nonull p h0), List.length_append, hplen, L_shim]
    simp
    omega
  · have hl : (p.take (p.length - 3) ++ L "shim").length = p.length + 1 := by
      rw [List.length_append, hplen, L_shim]; simp; omega
    rw [← hl, List.getElem?_append_right (Nat.le_refl _)]
    simp
  · rw [GetShimInfo_open env p hp h0 h3 hn, hname]
    cases env.openFile (specReplaceExtension p (L "shim")) <;> rfl

/-- C9, witness: `C:\s\shim.exe` gives the sidecar `C:\s\shim.shim`. -/
theorem sidecar_name_witness :
    (GetShimInfo (moduleEnv (L "C:\\s\\shim.exe"))).1.head?
      = some (.wfopen (L "C:\\s\\shim.shim")) := by
  obtain ⟨_, _, _, _, _, _, h⟩ := (sidecar_name (moduleEnv (L "C:\\s\\shim.exe"))
    (L "C:\\s\\shim.exe") rfl (by decide)).1 (L "C:\\s\\shim") (L "exe")
    (by decide) (by decide) (by decide) (by decide)
  exact h

/-- C9, counterexample: the executable `C:\s\tool.x` has 11 characters (fewer than
`MAX_PATH`) and the extension `x`. Replacing the extension gives `C:\s\tool.shim`; the
code overwrites the last three characters `l.x` and opens `C:\s\tooshim`. -/
theorem sidecar_name_counterexample :
    (L "C:\\s\\tool.x").length < MAX_PATH ∧
    specReplaceExtension (L "C:\\s\\tool.x") (L "shim") = L "C:\\s\\tool.shim" ∧
    (GetShimInfo (moduleEnv (L "C:\\s\\tool.x"))).1.head?
      = some (.wfopen (L "C:\\s\\tooshim")) ∧
    (GetShimInfo (moduleEnv (L "C:\\s\\tool.x"))).1.head?
      ≠ some (.wfopen (specReplaceExtension (L "C:\\s\\tool.x") (L "shim"))) := by
  decide

/-! ## C10: lines that are not recognised -/

theorem fgetwsRead_complete (pre rest : List Nat) (k : Nat) (hne : pre ≠ [])
    (hlast : pre.getLast? = some 10) :
    fgetwsRead (pre ++ rest) k = ((fgetwsRead pre k).1, (fgetwsRead pre k).2 ++ rest) ∧
    ((fgetwsRead pre k).2 = [] ∨ (fgetwsRead pre k).2.getLast? = some 10) := by
  induction pre generalizing k with
  | nil => exact absurd rfl hne
  | cons c s ih =>
    rw [List.cons_append]
    unfold fgetwsRead
    by_cases hk : k = 0
    · rw [if_pos hk, if_pos hk]
      exact ⟨rfl, Or.inr hlast⟩
    · rw [if_neg hk, if_neg hk]
      by_cases hc : c = 10
      · rw [if_pos hc, if_pos hc]
        refine ⟨rfl, ?_⟩
        cases s with
        | nil => exact Or.inl rfl
        | cons d s' => exact Or.inr (by rw [List.getLast?_cons_cons] at hlast; exact hlast)
      · rw [if_neg hc, if_neg hc]
        cases s with
        | nil =>
          rw [List.getLast?_singleton] at hlast
          exact absurd (Option.some.inj hlast) hc
        | cons d s' =>
          rw [List.getLast?_cons_cons] at hlast
          obtain ⟨h1, h2⟩ := ih (k - 1) (by simp) hlast
          rw [h1]
          exact ⟨rfl, h2⟩

theorem linesOf_append_bounded (n : Nat) (pre rest : List Nat) (hn : pre.length ≤ n)
    (h : pre = [] ∨ pre.getLast? = some 10) :
    linesOf (pre ++ rest) = linesOf pre ++ linesOf rest := by
  induction n generalizing pre with
  | zero =>
    have : pre = [] := List.length_eq_zero.mp (Nat.le_zero.mp hn)
    subst this
    rfl
  | succ n ih =>
    cases pre with
    | nil => rfl
    | cons c s =>
      have hlast : (c :: s).getLast? = some 10 := by
        rcases h with h | h
        · exact absurd h (by simp)
        · exact h
      obtain ⟨h1, h2⟩ := fgetwsRead_complete (c :: s) rest (LINEBUF_LEN - 1) (by simp) hlast
      have hp := fgetwsRead_progress c s (LINEBUF_LEN - 1) (by decide)
      rw [List.cons_append, linesOf_cons, ← List.cons_append, h1, linesOf_cons]
      simp only []
      rw [ih _ (by simp at hn; omega) h2]
      rfl

theorem linesOf_append (pre rest : List Nat) (h : pre = [] ∨ pre.getLast? = some 10) :
    linesOf (pre ++ rest) = linesOf pre ++ linesOf rest :=
  linesOf_append_bounded pre.length pre rest (Nat.le_refl _) h

theorem specLastValue_skip (key : WString) (l1 l2 : List WString) (x : WString)
    (hx : specRecognised key x = false) :
    specLastValue key (l1 ++ x :: l2) = specLastValue key (l1 ++ l2) := by
  unfold specLastValue
  rw [List.filter_append, List.filter_cons_of_neg (by rw [hx]; simp), List.filter_append]

/-- The part of C10 that the code does satisfy. A line that fits one `fgetws` read
(`body` and its newline, or a final `body` without newline), stands after complete
lines `pre` and does not start with `path = ` or `args = ` has no effect: the read loop
returns the same pair as for the file without that line. -/
theorem short_line_ignored (pre body post : List Nat)
    (hpre : pre = [] ∨ pre.getLast? = some 10) (hb : 10 ∉ body)
    (hlen : body.length + 1 < LINEBUF_LEN) :
    (specRecognised (L "path") (body ++ [10]) = false →
      specRecognised (L "args") (body ++ [10]) = false →
      readShim ((pre ++ (body ++ 10 :: post)).length + 1) (pre ++ (body ++ 10 :: post))
          (none, none)
        = readShim ((pre ++ post).length + 1) (pre ++ post) (none, none)) ∧
    (specRecognised (L "path") body = false → specRecognised (L "args") body = false →
      readShim ((pre ++ body).length + 1) (pre ++ body) (none, none)
        = readShim (pre.length + 1) pre (none, none)) := by
  constructor
  · intro hp ha
    rw [readShim_lastValue, readShim_lastValue, linesOf_append _ _ hpre,
      linesOf_append _ _ hpre, linesOf_line body post hb hlen,
      specLastValue_skip _ _ _ _ (specRecognised_wcsview _ _ hp),
      specLastValue_skip _ _ _ _ (specRecognised_wcsview _ _ ha)]
  · intro hp ha
    rw [readShim_lastValue, readShim_lastValue, linesOf_append _ _ hpre]
    cases hbody : body with
    | nil => simp [linesOf_nil]
    | cons c s =>
      rw [← hbody, linesOf_last body (by rw [hbody]; simp) hb (by omega),
        specLastValue_skip _ _ _ _ (specRecognised_wcsview _ _ hp),
        specLastValue_skip _ _ _ _ (specRecognised_wcsview _ _ ha)]
      simp

theorem longLine_sidecar :
    SidecarStream (testEnv longLineFile (L "shim.exe") EXE_CONSOLE (.ok 100 104) (.fail 5)
      (some 0)) longLineFile :=
  ⟨L "C:\\s\\shim.exe", rfl, by decide, by decide, by decide, by
    show (if (L "C:\\s\\shim.exe").take ((L "C:\\s\\shim.exe").length - 3) ++ L "shim"
      = L "C:\\s\\shim.shim" then some longLineFile else none) = some longLineFile
    exact if_pos (by decide)⟩

theorem longLine_linesOf :
    linesOf longLineFile = [List.replicate (LINEBUF_LEN - 1) 120, L "path = evil\n"] := by
  have hx : (10 : Nat) ∉ List.replicate (LINEBUF_LEN - 1) 120 := by
    intro h; rw [List.mem_replicate] at h; exact absurd h.2 (by decide)
  have h0 : (0 : Nat) ∉ List.replicate (LINEBUF_LEN - 1) 120 := by
    intro h; rw [List.mem_replicate] at h; exact absurd h.2 (by decide)
  unfold longLineFile
  rw [linesOf_full _ _ hx (List.length_replicate _ _), wcsview_of_not_mem _ h0]
  congr 1

/-- C10, the failing input evaluated. The sidecar `longLineFile` is a single line of
16395 characters that starts with `xxxxxxx`, so it is not a `path` or `args` line, and
removing it leaves the empty file. For the empty file `GetShimInfo` returns no target
path; for `longLineFile` it returns the target path `evil`, taken from the second
`fgetws` read of the same line. -/
theorem long_line_is_reparsed :
    specRecognised (L "path") longLineFile = false ∧
    specRecognised (L "args") longLineFile = false ∧
    10 ∉ longLineFile.dropLast ∧
    (GetShimInfo (testEnv [] (L "shim.exe") EXE_CONSOLE (.ok 100 104) (.fail 5)
      (some 0))).2 = some (none, none) ∧
    (GetShimInfo (testEnv longLineFile (L "shim.exe") EXE_CONSOLE (.ok 100 104) (.fail 5)
      (some 0))).2 = some (some (L "evil"), none) := by
  refine ⟨by decide, by decide, ?_, by decide, ?_⟩
  · have e : longLineFile.dropLast = List.replicate (LINEBUF_LEN - 1) 120 ++ L "path = evil" := by
      unfold longLineFile
      have : L "path = evil\n" = L "path = evil" ++ [10] := by decide
      rw [this, ← List.append_assoc, List.dropLast_concat]
    rw [e]
    intro h
    rcases List.mem_append.mp h with h | h
    · rw [List.mem_replicate] at h; exact absurd h.2 (by decide)
    · exact absurd h (by decide)
  · obtain ⟨name, hname⟩ := GetShimInfo_sidecar _ _ longLine_sidecar
    rw [hname, longLine_linesOf]
    have hp := specLastValue_last (L "path") [List.replicate (LINEBUF_LEN - 1) 120] []
      (L "path = evil\n") (by decide) (by simp)
    have ha : specLastValue (L "args")
        [List.replicate (LINEBUF_LEN - 1) 120, L "path = evil\n"] = none :=
      specLastValue_none _ _ (by
        intro l hl
        simp at hl
        rcases hl with hl | hl <;> rw [hl] <;> decide)
    have hv : specValue (L "path = evil\n") = L "evil" := by decide
    rw [List.singleton_append] at hp
    rw [hp, ha, hv]

/-! ## C5 and C7 on a sidecar with an over-long line -/

theorem fileLines_line (body rest : List Nat) (h : 10 ∉ body) :
    fileLines (body ++ 10 :: rest) = (body ++ [10]) :: fileLines rest := by
  induction body with
  | nil =>
    rw [List.nil_append, fileLines, if_pos rfl]
    rfl
  | cons c s ih =>
    have hc : c ≠ 10 := fun e => h (by simp [e])
    have hs : 10 ∉ s := fun m => h (by simp [m])
    rw [List.cons_append, fileLines, if_neg hc, ih hs]
    rfl

theorem testEnv_sidecar (file cmd : WString) (exeType : Nat) (cp : CreateResult)
    (se : ShellResult) (exitCode : Option Nat) :
    SidecarStream (testEnv file cmd exeType cp se exitCode) file :=
  ⟨L "C:\\s\\shim.exe", rfl, by decide, by decide, by decide, by
    show (if (L "C:\\s\\shim.exe").take ((L "C:\\s\\shim.exe").length - 3) ++ L "shim"
      = L "C:\\s\\shim.shim" then some file else none) = some file
    exact if_pos (by decide)⟩

theorem xs_no_newline : (10 : Nat) ∉ List.replicate (LINEBUF_LEN - 1) 120 := by
  intro h; rw [List.mem_replicate] at h; exact absurd h.2 (by decide)

theorem xs_no_null : (0 : Nat) ∉ List.replicate (LINEBUF_LEN - 1) 120 := by
  intro h; rw [List.mem_replicate] at h; exact absurd h.2 (by decide)

theorem longLine_single : fileLines longLineFile = [longLineFile] := by
  have e : longLineFile = (List.replicate (LINEBUF_LEN - 1) 120 ++ L "path = evil") ++ 10 :: [] := by
    unfold longLineFile
    have : L "path = evil\n" = L "path = evil" ++ [10] := by decide
    rw [this, List.append_assoc]
  have hb : (10 : Nat) ∉ List.replicate (LINEBUF_LEN - 1) 120 ++ L "path = evil" :=
    nonl_line _ _ xs_no_newline (by decide)
  have h := fileLines_line _ [] hb
  rw [← e] at h
  rw [h]
  rfl

/-- C5, the failing input evaluated. The sidecar `longLineFile` consists of one line, and
that line is not a `path` line, so the file contains no line recognised as a `path` key.
Yet the launcher does not stop with status 1: it calls `CreateProcessW` with the command
`evil ` taken from the second `fgetws` read of the line, waits, and returns the child's
exit code 42. -/
theorem long_line_launches :
    fileLines longLineFile = [longLineFile] ∧
    specRecognised (L "path") longLineFile = false ∧
    Effect.CreateProcessW (L "evil ") ∈
      (wmain (testEnv longLineFile (L "shim.exe") EXE_CONSOLE (.ok 100 104) (.fail 5)
        (some 42))).1 ∧
    (wmain (testEnv longLineFile (L "shim.exe") EXE_CONSOLE (.ok 100 104) (.fail 5)
      (some 42))).2 = some 42 := by
  refine ⟨longLine_single, by decide, ?_⟩
  obtain ⟨name, hname⟩ := GetShimInfo_sidecar _ _
    (testEnv_sidecar longLineFile (L "shim.exe") EXE_CONSOLE (.ok 100 104) (.fail 5) (some 42))
  have hp := specLastValue_last (L "path") [List.replicate (LINEBUF_LEN - 1) 120] []
    (L "path = evil\n") (by decide) (by simp)
  have ha : specLastValue (L "args")
      [List.replicate (LINEBUF_LEN - 1) 120, L "path = evil\n"] = none :=
    specLastValue_none _ _ (by
      intro l hl
      simp at hl
      rcases hl with hl | hl <;> rw [hl] <;> decide)
  have hv : specValue (L "path = evil\n") = L "evil" := by decide
  rw [List.singleton_append] at hp
  rw [longLine_linesOf, hp, ha, hv] at hname
  have hfwd : forwardedArgs (testEnv longLineFile (L "shim.exe") EXE_CONSOLE (.ok 100 104)
      (.fail 5) (some 42)).commandLine (testEnv longLineFile (L "shim.exe") EXE_CONSOLE
      (.ok 100 104) (.fail 5) (some 42)).argv0 = some [] := by decide
  rw [wmain_launch _ _ _ _ _ hname hfwd, MakeProcess_ok _ _ _ 100 104 rfl]
  simp only []
  rw [if_pos (by decide)]
  have hc : wcsview (L "evil" ++ 32 :: ((none : Option WString).getD [] ++ []) ++ [0])
      = L "evil " := by decide
  rw [hc]
  exact ⟨by simp, rfl⟩

theorem twoPaths_fileLines :
    fileLines twoPathsFile = [L "path = a\n", L "path = b\n", longLineC] := by
  have ea : L "path = a\n" = L "path = a" ++ [10] := by decide
  have eb : L "path = b\n" = L "path = b" ++ [10] := by decide
  have ec : longLineC = (List.replicate (LINEBUF_LEN - 1) 120 ++ L "path = c") ++ 10 :: [] := by
    unfold longLineC
    have : L "path = c\n" = L "path = c" ++ [10] := by decide
    rw [this, List.append_assoc]
  have hb : (10 : Nat) ∉ List.replicate (LINEBUF_LEN - 1) 120 ++ L "path = c" :=
    nonl_line _ _ xs_no_newline (by decide)
  have h3 : fileLines longLineC = [longLineC] := by
    have h := fileLines_line _ [] hb
    rw [← ec] at h
    rw [h]
    rfl
  unfold twoPathsFile
  rw [ea, eb, List.append_assoc, List.singleton_append,
    fileLines_line _ _ (by decide), List.append_assoc, List.singleton_append,
    fileLines_line _ _ (by decide), h3]

theorem twoPaths_linesOf :
    linesOf twoPathsFile =
      [L "path = a\n", L "path = b\n", List.replicate (LINEBUF_LEN - 1) 120, L "path = c\n"] := by
  have ea : L "path = a\n" = L "path = a" ++ [10] := by decide
  have eb : L "path = b\n" = L "path = b" ++ [10] := by decide
  have hc : linesOf (L "path = c\n") = [L "path = c\n"] := by decide
  unfold twoPathsFile longLineC
  rw [ea, eb, List.append_assoc, List.singleton_append,
    linesOf_line _ _ (by decide) (by decide), List.append_assoc, List.singleton_append,
    linesOf_line _ _ (by decide) (by decide),
    linesOf_full _ _ xs_no_newline (List.length_replicate _ _),
    wcsview_of_not_mem _ xs_no_null, hc]
  rfl

/-- C7, the failing input evaluated. The sidecar `twoPathsFile` has three lines:
`path = a`, `path = b`, and a line of 16392 characters that starts with `xxxxxxx` and
ends in `path = c`. The lines recognised as `path` lines are the first two and the last
of them in file order has the value `b`; `GetShimInfo` returns the target path `c`, taken
from the second `fgetws` read of the third line. -/
theorem long_line_overrides_last_path :
    fileLines twoPathsFile = [L "path = a\n", L "path = b\n", longLineC] ∧
    specRecognised (L "path") longLineC = false ∧
    specLastValue (L "path") (fileLines twoPathsFile) = some (L "b") ∧
    (GetShimInfo (testEnv twoPathsFile (L "shim.exe") EXE_CONSOLE (.ok 100 104) (.fail 5)
      (some 0))).2 = some (some (L "c"), none) := by
  refine ⟨twoPaths_fileLines, by decide, ?_, ?_⟩
  · rw [twoPaths_fileLines]
    have h := specLastValue_last (L "path") [L "path = a\n"] [longLineC] (L "path = b\n")
      (by decide) (by
        intro m hm
        simp at hm
        rw [hm]
        decide)
    rw [List.singleton_append] at h
    rw [h]
    decide
  · obtain ⟨name, hname⟩ := GetShimInfo_sidecar _ _
      (testEnv_sidecar twoPathsFile (L "shim.exe") EXE_CONSOLE (.ok 100 104) (.fail 5) (some 0))
    have hp := specLastValue_last (L "path")
      [L "path = a\n", L "path = b\n", List.replicate (LINEBUF_LEN - 1) 120] []
      (L "path = c\n") (by decide) (by simp)
    have ha : specLastValue (L "args")
        [L "path = a\n", L "path = b\n", List.replicate (LINEBUF_LEN - 1) 120,
          L "path = c\n"] = none :=
      specLastValue_none _ _ (by
        intro l hl
        simp at hl
        rcases hl with hl | hl | hl | hl <;> rw [hl] <;> decide)
    have hv : specValue (L "path = c\n") = L "c" := by decide
    rw [twoPaths_linesOf] at hname
    rw [hname]
    simp only []
    rw [ha]
    have hp' : specLastValue (L "path")
        [L "path = a\n", L "path = b\n", List.replicate (LINEBUF_LEN - 1) 120,
          L "path = c\n"] = some (L "c") := by
      rw [← hv]; exact hp
    rw [hp']

end Shim
